import Mathlib

/-! # The doppel record store (`ddtxn/store.go`)

A shallow embedding of the sharded record store: the partitioned backend
(`s.store`, 256 chunks selected by `k[0]`), the flat backend (`s.gstore`), the
create / create-if-absent / create-with-lock operations, the lookup, the merge
operations and the hot-key test.

Modelling conventions.

* A `*BRecord` is an address into an explicit heap (`Store.heap`); `none` is the
  Go `nil` pointer.  `MakeBR` allocates at the next free address, so record
  identity (pointer equality) is address equality.
* A Go `map[Key]*BRecord` is a function `Key → Option Ptr`: `none` means the key
  has no entry, `some none` an entry holding a nil pointer.
* `[]*Chunk` is a list of optional chunks (`none` is a nil chunk pointer).
* `log.Fatalf` and run-time panics are the `Fault` results of `Except`.
* Operations are sequential: `chunk.Lock()/Unlock()` and `RLock()/RUnlock()`
  pairs are balanced on every path of the source and leave no trace in the
  state; they appear as comments at the place where the source takes them.
* `int32` values are integers, wrapped with `wrap32` where the source adds.
* The three locked-creation methods return, next to their outcome, the list of
  the stores after each statement that writes, in program order; the order of
  the record lock and of the publication is read off that list.
-/

namespace Doppel

/-! ## Data model -/

/-- The constant `CHUNKS = 256`. -/
def CHUNKS : Nat := 256

/-- The Go type `Key [16]byte`. -/
abbrev Key := { l : List (Fin 256) // l.length = 16 }

/-- The Go expression `len(k)`. -/
def Key.len (k : Key) : Nat := k.val.length

/-- The Go expression `k[0]`, the shard selector byte. -/
def Key.at0 (k : Key) : Nat := (k.val.get ⟨0, by rw [k.property]; decide⟩).val

/-- Modelled from the spec: the merge-semantic tag `KeyType`, whose declaration is
in a file of the package other than `store.go`; the spec enumerates SUM, MAX,
WRITE, LIST and OOWRITE, the five cases of the `switch` in `Set`. -/
inductive KeyType
  | SUM | MAX | WRITE | LIST | OOWRITE
  deriving DecidableEq, Repr

/-- Modelled from the spec: the list entry type `Entry`, declared outside
`store.go`; the spec gives it no structure, so an entry is an opaque payload. -/
structure Entry where
  payload : Nat
  deriving DecidableEq, Repr

/-- The Go type `Value interface{}`: the nil interface, an `int32`, an `Entry`,
an `Overwrite{i, v}` (fields `i int32` and `v Value`, as used by `Set`), or a
value of any other dynamic type. -/
inductive Value
  | nil
  | int32 (i : Int)
  | entry (e : Entry)
  | overwrite (i : Int) (v : Value)
  | other (n : Nat)
  deriving DecidableEq, Repr

/-- The errors declared in `store.go`. -/
inductive Err
  | ENOKEY | EABORT | ESTASH | ENORETRY | EEXISTS
  deriving DecidableEq, Repr

/-- Abnormal terminations: the four `log.Fatalf` sites of `store.go`, the Go
run-time panics, and blocking forever on a record lock that is already held. -/
inductive Fault
  | fatalEmptyKey
  | fatalNoChunk
  | fatalNotPreallocated
  | fatalCannotPut
  | panicIndex
  | panicNilDeref
  | panicTypeAssert
  | blocked
  deriving DecidableEq, Repr

/-- The three record lock modes: `Lock`, `SLock`, `SRLock`. -/
inductive LockMode
  | exclusive | slock | srlock
  deriving DecidableEq, Repr

/-- Modelled from the spec: the record type `BRecord`, declared outside
`store.go`.  It holds the key, its tag, the generic value field, the 32-bit
signed scalar, the ordered list of entries, and the lock state (`none` when the
record is not held). -/
structure BRecord where
  key : Key
  key_type : KeyType
  value : Value
  int_value : Int
  entries : List Entry
  lock : Option LockMode
  deriving DecidableEq

/-- A `*BRecord`: `none` is nil, `some a` the record at heap address `a`. -/
abbrev Ptr := Option Nat

/-- A Go `map[Key]*BRecord` (also the flat `gotomic.Hash` restricted to the
records the store puts into it). -/
abbrev RowMap := Key → Option Ptr

/-- The struct `Chunk`: one shard (padding omitted, mutex see the header). -/
structure Chunk where
  rows : RowMap

/-- The struct `Store` (padding and the candidate tracker omitted). -/
structure Store where
  store : List (Option Chunk)
  gstore : RowMap
  NChunksAccessed : List Int
  dd : Key → Option Bool
  any_dd : Bool
  heap : List BRecord

/-- The two command-line flags read by the store, fixed at process start. -/
structure Flags where
  GStore : Bool
  UseRLocks : Bool
  deriving DecidableEq, Repr

/-- 32-bit two-complement wrap-around of an integer. -/
def wrap32 (x : Int) : Int := (x + 2147483648) % 4294967296 - 2147483648

/-! ## Collaborators of `store.go` -/

/-- The Go two-result map read `v, ok := m[k]`. -/
def mapGet (m : RowMap) (k : Key) : Ptr × Bool :=
  match m k with
  | none => (none, false)
  | some p => (p, true)

/-- The Go map write `m[k] = p`. -/
def mapSet (m : RowMap) (k : Key) (p : Ptr) : RowMap :=
  fun j => if j = k then some p else m j

/-- The flat map read `gstore.Get(k)`. -/
def gGet (m : RowMap) (k : Key) : Ptr × Bool := mapGet m k

/-- The flat map write `gstore.Put(k, p)`. -/
def gPut (m : RowMap) (k : Key) (p : Ptr) : RowMap := mapSet m k p

/-- The flat map primitive `gstore.PutIfMissing(k, p)`: inserts and reports
`true` when `k` has no entry, otherwise leaves the map alone and reports
`false`. -/
def gPutIfMissing (m : RowMap) (k : Key) (p : Ptr) : Bool × RowMap :=
  match m k with
  | none => (true, mapSet m k p)
  | some _ => (false, m)

/-- Modelled from the spec: the constructor `MakeBR`, defined outside
`store.go`.  The new record carries the key and its tag, is not held, and
stores the initial value in the field that is meaningful for the tag: the
scalar for SUM and MAX, the generic value for WRITE, the list for LIST, the
(priority, value) pair for OOWRITE. -/
def MakeBR (k : Key) (v : Value) (kt : KeyType) : BRecord :=
  let blank : BRecord :=
    { key := k, key_type := kt, value := .nil, int_value := 0, entries := [], lock := none }
  match kt, v with
  | .SUM, .int32 i => { blank with int_value := i }
  | .MAX, .int32 i => { blank with int_value := i }
  | .WRITE, v => { blank with value := v }
  | .LIST, .entry e => { blank with entries := [e] }
  | .OOWRITE, .overwrite i x => { blank with int_value := i, value := x }
  | _, _ => blank

/-- Allocation of a record built by `MakeBR`: the pointer returned is the next
free heap address. -/
def Store.alloc (s : Store) (r : BRecord) : Ptr × Store :=
  (some s.heap.length, { s with heap := s.heap ++ [r] })

/-- Modelled from the spec: the record lock acquisitions `br.Lock()`,
`br.SLock()` and `br.SRLock()`, defined outside `store.go`.  Acquiring a free
record marks it held in the requested mode; a nil pointer panics and a record
that is already held blocks the caller. -/
def Store.lockRecord (s : Store) (br : Ptr) (mode : LockMode) : Except Fault Store :=
  match br with
  | none => .error .panicNilDeref
  | some a =>
    match s.heap[a]? with
    | none => .error .panicNilDeref
    | some r =>
      match r.lock with
      | some _ => .error .blocked
      | none => .ok { s with heap := s.heap.set a { r with lock := some mode } }

/-- The write `chunk.rows[k] = br` on the chunk `s.store[i]`. -/
def Store.setRow (s : Store) (i : Nat) (chunk : Chunk) (k : Key) (br : Ptr) : Store :=
  { s with store := s.store.set i (some { chunk with rows := mapSet chunk.rows k br }) }

/-! ## The operations of `store.go` -/

/-- The Go function `NewStore`: 256 chunks, each with an empty row map. -/
def NewStore : Store :=
  let s : Store :=
    { store := List.replicate CHUNKS none
      gstore := fun _ => none
      NChunksAccessed := List.replicate CHUNKS 0
      dd := fun _ => none
      any_dd := false
      heap := [] }
  (List.range CHUNKS).foldl
    (fun s i =>
      let chunk : Chunk := { rows := fun _ => none }
      let bb := i % 256
      { s with store := s.store.set bb (some chunk) })
    s

/-- The Go method `getKeyStatic`. -/
def getKeyStatic (s : Store) (k : Key) : Except Fault (Ptr × Option Err) :=
  if k.len = 0 then .error .fatalEmptyKey
  else
    match s.store[k.at0]? with
    | none => .error .panicIndex
    | some none => .error .fatalNoChunk
    | some (some chunk) =>
      let (vr, ok) := mapGet chunk.rows k
      if !ok || vr == none then .ok (vr, some .ENOKEY)
      else .ok (vr, none)

/-- The Go method `getKey`. -/
def getKey (fl : Flags) (s : Store) (k : Key) : Except Fault (Ptr × Option Err) :=
  if k.len = 0 then .error .fatalEmptyKey
  else if fl.GStore then
    let (x, err) := gGet s.gstore k
    if !err then .ok (none, some .ENOKEY)
    else .ok (x, none)
  else if !fl.UseRLocks then
    getKeyStatic s k
  else
    match s.store[k.at0]? with
    | none => .error .panicIndex
    | some none => .error .fatalNoChunk
    | some (some chunk) =>
      -- chunk.RLock()
      let (vr, ok) := mapGet chunk.rows k
      if !ok || vr == none then
        -- chunk.RUnlock()
        .ok (vr, some .ENOKEY)
      else
        -- chunk.RUnlock()
        .ok (vr, none)

/-- The Go method `Get`. -/
def Get (fl : Flags) (s : Store) (k : Key) : Except Fault (Ptr × Option Err) :=
  getKey fl s k

/-- The Go method `getOrCreateTypedKey`.  In the flat branch the source
declares a second `br` with `:=` inside the `if *GStore` block; the model calls
it `br2`, and the function returns the outer `br`. -/
def getOrCreateTypedKey (fl : Flags) (s : Store) (k : Key) (v : Value) (kt : KeyType) :
    Except Fault (Ptr × Store) :=
  match getKey fl s k with
  | .error e => .error e
  | .ok (br, err) =>
    if err = some .ENOKEY then
      if fl.GStore then
        let (_, ok) := gGet s.gstore k
        if !ok then
          let (br2, s) := s.alloc (MakeBR k v kt)
          let (did, g) := gPutIfMissing s.gstore k br2
          let s := { s with gstore := g }
          if !did then
            let (_, ok) := gGet s.gstore k
            if !ok then .error .fatalCannotPut
            else .ok (br, s)
          else .ok (br, s)
        else .ok (br, s)
      else
        if !fl.UseRLocks then .error .fatalNotPreallocated
        else
          match s.store[k.at0]? with
          | none => .error .panicIndex
          | some none => .error .panicNilDeref
          | some (some chunk) =>
            -- chunk.Lock()
            let (br, ok) := mapGet chunk.rows k
            if !ok then
              let (br, s) := s.alloc (MakeBR k v kt)
              let s := s.setRow k.at0 chunk k br
              -- chunk.Unlock()
              .ok (br, s)
            else
              -- chunk.Unlock()
              .ok (br, s)
    else .ok (br, s)

/-- The Go method `CreateKey`. -/
def CreateKey (fl : Flags) (s : Store) (k : Key) (v : Value) (kt : KeyType) :
    Except Fault (Ptr × Store) :=
  let (br, s) := s.alloc (MakeBR k v kt)
  if fl.GStore then
    .ok (br, { s with gstore := gPut s.gstore k br })
  else
    match s.store[k.at0]? with
    | none => .error .panicIndex
    | some none => .error .panicNilDeref
    | some (some chunk) =>
      -- chunk.Lock()
      let s := s.setRow k.at0 chunk k br
      -- chunk.Unlock()
      .ok (br, s)

/-- The Go method `CreateLockedKey`.  The second component is the outcome of the
call; the first lists the store after each statement that writes, in program
order: after `MakeBR`, after `br.Lock()`, and after the insertion
(`PutIfMissing`, or `chunk.rows[k] = br`) when the call reaches it. -/
def CreateLockedKey (fl : Flags) (s : Store) (k : Key) (kt : KeyType) :
    List Store × Except Fault ((Ptr × Option Err) × Store) :=
  -- br := MakeBR(k, nil, kt)
  let (br, s1) := s.alloc (MakeBR k .nil kt)
  -- br.Lock()
  match s1.lockRecord br .exclusive with
  | .error e => ([s1], .error e)
  | .ok s2 =>
    if fl.GStore then
      -- ok := s.gstore.PutIfMissing(k, br)
      let (ok, g) := gPutIfMissing s2.gstore k br
      let s3 := { s2 with gstore := g }
      if !ok then ([s1, s2, s3], .ok ((none, some .EEXISTS), s3))
      else ([s1, s2, s3], .ok ((br, none), s3))
    else
      match s2.store[k.at0]? with
      | none => ([s1, s2], .error .panicIndex)
      | some none => ([s1, s2], .error .panicNilDeref)
      | some (some chunk) =>
        -- chunk.Lock()
        let (_, ok) := mapGet chunk.rows k
        if ok then
          -- chunk.Unlock()
          ([s1, s2], .ok ((none, some .EEXISTS), s2))
        else
          -- chunk.rows[k] = br
          let s3 := s2.setRow k.at0 chunk k br
          -- chunk.Unlock()
          ([s1, s2, s3], .ok ((br, none), s3))

/-- The Go method `CreateMuLockedKey`.  The second component is the outcome of the
call; the first lists the store after each statement that writes, in program
order: after `MakeBR`, after `br.SLock()`, and after the insertion
(`PutIfMissing`, or `chunk.rows[k] = br`) when the call reaches it. -/
def CreateMuLockedKey (fl : Flags) (s : Store) (k : Key) (kt : KeyType) :
    List Store × Except Fault ((Ptr × Option Err) × Store) :=
  -- br := MakeBR(k, nil, kt)
  let (br, s1) := s.alloc (MakeBR k .nil kt)
  -- br.SLock()
  match s1.lockRecord br .slock with
  | .error e => ([s1], .error e)
  | .ok s2 =>
    if fl.GStore then
      -- ok := s.gstore.PutIfMissing(k, br)
      let (ok, g) := gPutIfMissing s2.gstore k br
      let s3 := { s2 with gstore := g }
      if !ok then ([s1, s2, s3], .ok ((none, some .EEXISTS), s3))
      else ([s1, s2, s3], .ok ((br, none), s3))
    else
      match s2.store[k.at0]? with
      | none => ([s1, s2], .error .panicIndex)
      | some none => ([s1, s2], .error .panicNilDeref)
      | some (some chunk) =>
        -- chunk.Lock()
        let (_, ok) := mapGet chunk.rows k
        if ok then
          -- chunk.Unlock()
          ([s1, s2], .ok ((none, some .EEXISTS), s2))
        else
          -- chunk.rows[k] = br
          let s3 := s2.setRow k.at0 chunk k br
          -- chunk.Unlock()
          ([s1, s2, s3], .ok ((br, none), s3))

/-- The Go method `CreateMuRLockedKey`.  The second component is the outcome of the
call; the first lists the store after each statement that writes, in program
order: after `MakeBR`, after `br.SRLock()`, and after the insertion
(`PutIfMissing`, or `chunk.rows[k] = br`) when the call reaches it. -/
def CreateMuRLockedKey (fl : Flags) (s : Store) (k : Key) (kt : KeyType) :
    List Store × Except Fault ((Ptr × Option Err) × Store) :=
  -- br := MakeBR(k, nil, kt)
  let (br, s1) := s.alloc (MakeBR k .nil kt)
  -- br.SRLock()
  match s1.lockRecord br .srlock with
  | .error e => ([s1], .error e)
  | .ok s2 =>
    if fl.GStore then
      -- ok := s.gstore.PutIfMissing(k, br)
      let (ok, g) := gPutIfMissing s2.gstore k br
      let s3 := { s2 with gstore := g }
      if !ok then ([s1, s2, s3], .ok ((none, some .EEXISTS), s3))
      else ([s1, s2, s3], .ok ((br, none), s3))
    else
      match s2.store[k.at0]? with
      | none => ([s1, s2], .error .panicIndex)
      | some none => ([s1, s2], .error .panicNilDeref)
      | some (some chunk) =>
        -- chunk.Lock()
        let (_, ok) := mapGet chunk.rows k
        if ok then
          -- chunk.Unlock()
          ([s1, s2], .ok ((none, some .EEXISTS), s2))
        else
          -- chunk.rows[k] = br
          let s3 := s2.setRow k.at0 chunk k br
          -- chunk.Unlock()
          ([s1, s2, s3], .ok ((br, none), s3))

/-- Modelled from the spec: the record method `AddOneToRecord`, defined outside
`store.go`: the incoming entry is appended to the record's ordered list. -/
def BRecord.AddOneToRecord (br : BRecord) (ve : Entry) : BRecord :=
  { br with entries := br.entries ++ [ve] }

/-- The Go method `SetInt32`, on the record `br` points to. -/
def SetInt32 (br : BRecord) (v : Int) (op : KeyType) : BRecord :=
  match op with
  | .SUM => { br with int_value := wrap32 (br.int_value + v) }
  | .MAX => if v > br.int_value then { br with int_value := v } else br
  | _ => br

/-- The Go method `SetList`, on the record `br` points to. -/
def SetList (br : BRecord) (ve : Entry) (_op : KeyType) : BRecord :=
  br.AddOneToRecord ve

/-- The Go method `SetOO`, on the record `br` points to. -/
def SetOO (br : BRecord) (a : Int) (v : Value) (_op : KeyType) : BRecord :=
  if v ≠ .nil then
    if a > br.int_value ∨ br.value = .nil then
      { br with int_value := a, value := v }
    else br
  else br

/-- The Go method `Set`, on the record `br` points to; a failed type assertion
`v.(T)` is the fault `panicTypeAssert`. -/
def Set (br : BRecord) (v : Value) (op : KeyType) : Except Fault BRecord :=
  match op with
  | .SUM =>
    match v with
    | .int32 x => .ok { br with int_value := wrap32 (br.int_value + x) }
    | _ => .error .panicTypeAssert
  | .MAX =>
    match v with
    | .int32 x => if x > br.int_value then .ok { br with int_value := x } else .ok br
    | _ => .error .panicTypeAssert
  | .WRITE => .ok { br with value := v }
  | .LIST =>
    if v ≠ .nil then
      match v with
      | .entry e => .ok (br.AddOneToRecord e)
      | _ => .error .panicTypeAssert
    else .ok br
  | .OOWRITE =>
    if v ≠ .nil then
      match v with
      | .overwrite i x => .ok (SetOO br i x .OOWRITE)
      | _ => .error .panicTypeAssert
    else .ok br

/-- The Go method `IsDD`. -/
def IsDD (s : Store) (k : Key) : Bool :=
  if !s.any_dd then false
  else
    let (x, ok) :=
      match s.dd k with
      | none => (false, false)
      | some b => (b, true)
    x && ok

/-! ## Derived notions used to state the properties -/

/-- The entry of key `k` in the active backend: the flat map when `GStore` is
set, otherwise the row map of chunk `k[0]` (no entry when that chunk is
missing). -/
def resident (fl : Flags) (s : Store) (k : Key) : Option Ptr :=
  if fl.GStore then s.gstore k
  else
    match s.store[k.at0]? with
    | some (some chunk) => chunk.rows k
    | _ => none

/-- The row map of chunk `i` (empty when the chunk is missing). -/
def rowsOf (s : Store) (i : Nat) : RowMap :=
  match s.store[i]? with
  | some (some chunk) => chunk.rows
  | _ => fun _ => none

/-- Chunk `k[0]` has been initialised, as `NewStore` does for every chunk. -/
def chunkReady (s : Store) (k : Key) : Prop :=
  ∃ chunk, s.store[k.at0]? = some (some chunk)

/-- The call `create_with_lock(k, kt, mode)`: one of the three locked-creation
methods, selected by the lock mode. -/
def createWithLock (fl : Flags) (mode : LockMode) (s : Store) (k : Key) (kt : KeyType) :
    Except Fault ((Ptr × Option Err) × Store) :=
  match mode with
  | .exclusive => (CreateLockedKey fl s k kt).2
  | .slock => (CreateMuLockedKey fl s k kt).2
  | .srlock => (CreateMuRLockedKey fl s k kt).2

/-- The stores a call `create_with_lock(k, kt, mode)` goes through, in program
order: the first component of the selected locked-creation method. -/
def createWithLockTrace (fl : Flags) (mode : LockMode) (s : Store) (k : Key) (kt : KeyType) :
    List Store :=
  match mode with
  | .exclusive => (CreateLockedKey fl s k kt).1
  | .slock => (CreateMuLockedKey fl s k kt).1
  | .srlock => (CreateMuRLockedKey fl s k kt).1

/-- A merge applied through a record pointer: the pointer is dereferenced, the
record-level function is run, and the record is written back in place. -/
def Store.modify (s : Store) (br : Ptr) (f : BRecord → Except Fault BRecord) :
    Except Fault Store :=
  match br with
  | none => .error .panicNilDeref
  | some a =>
    match s.heap[a]? with
    | none => .error .panicNilDeref
    | some r =>
      match f r with
      | .error e => .error e
      | .ok r2 => .ok { s with heap := s.heap.set a r2 }

/-- The public operations of the store, as calls with their arguments. -/
inductive Op
  | createKey (k : Key) (v : Value) (kt : KeyType)
  | getOrCreateTypedKey (k : Key) (v : Value) (kt : KeyType)
  | createLockedKey (k : Key) (kt : KeyType)
  | createMuLockedKey (k : Key) (kt : KeyType)
  | createMuRLockedKey (k : Key) (kt : KeyType)
  | get (k : Key)
  | set (br : Ptr) (v : Value) (op : KeyType)
  | setInt32 (br : Ptr) (v : Int) (op : KeyType)
  | setList (br : Ptr) (ve : Entry) (op : KeyType)
  | setOO (br : Ptr) (a : Int) (v : Value) (op : KeyType)
  | isDD (k : Key)

/-- The store after one operation (the value returned to the caller is
dropped); a fault ends the run. -/
def step (fl : Flags) (s : Store) (o : Op) : Except Fault Store :=
  match o with
  | .createKey k v kt => (CreateKey fl s k v kt).map Prod.snd
  | .getOrCreateTypedKey k v kt => (getOrCreateTypedKey fl s k v kt).map Prod.snd
  | .createLockedKey k kt => (CreateLockedKey fl s k kt).2.map Prod.snd
  | .createMuLockedKey k kt => (CreateMuLockedKey fl s k kt).2.map Prod.snd
  | .createMuRLockedKey k kt => (CreateMuRLockedKey fl s k kt).2.map Prod.snd
  | .get k => (Get fl s k).map (fun _ => s)
  | .set br v op => s.modify br (fun r => Set r v op)
  | .setInt32 br v op => s.modify br (fun r => .ok (SetInt32 r v op))
  | .setList br ve op => s.modify br (fun r => .ok (SetList r ve op))
  | .setOO br a v op => s.modify br (fun r => .ok (SetOO r a v op))
  | .isDD k => let _ := IsDD s k; .ok s

/-- The store after a sequence of operations, run in order. -/
def run (fl : Flags) (s : Store) : List Op → Except Fault Store
  | [] => .ok s
  | o :: os =>
    match step fl s o with
    | .error e => .error e
    | .ok s2 => run fl s2 os

/-- The store after `MakeBR` and the record lock acquisition. -/
def lockedNew (s : Store) (k : Key) (kt : KeyType) (mode : LockMode) : Store :=
  { s with heap := s.heap ++ [{ MakeBR k .nil kt with lock := some mode }] }

/-- A key whose first byte is `b` and whose other bytes are `c`. -/
def mkKey (b c : Fin 256) : Key := ⟨b :: List.replicate 15 c, by simp⟩

/-- The key argument of a call, when it has one. -/
def Op.key : Op → Option Key
  | .createKey k _ _ => some k
  | .getOrCreateTypedKey k _ _ => some k
  | .createLockedKey k _ => some k
  | .createMuLockedKey k _ => some k
  | .createMuRLockedKey k _ => some k
  | .get k => some k
  | .isDD k => some k
  | _ => none

/-- What one successful operation may do to the two backends: nothing, or
publish the record allocated at the next free address under the key of the
call, in the chunk selected by the first byte of that key (partitioned backend)
or in the flat map; an existing entry is only ever replaced by `CreateKey`. -/
def StepShape (fl : Flags) (s : Store) (o : Op) (s2 : Store) : Prop :=
  s2.dd = s.dd ∧ s2.any_dd = s.any_dd ∧ s.heap.length ≤ s2.heap.length ∧
  ((s2.store = s.store ∧ s2.gstore = s.gstore) ∨
   (∃ k chunk, o.key = some k ∧ fl.GStore = false ∧
      s.store[k.at0]? = some (some chunk) ∧
      s2.store = s.store.set k.at0
        (some { rows := mapSet chunk.rows k (some s.heap.length) }) ∧
      s2.gstore = s.gstore ∧ s.heap.length < s2.heap.length ∧
      (chunk.rows k = none ∨ ∃ v kt, o = .createKey k v kt)) ∨
   (∃ k, o.key = some k ∧ fl.GStore = true ∧ s2.store = s.store ∧
      s2.gstore = mapSet s.gstore k (some s.heap.length) ∧ s.heap.length < s2.heap.length ∧
      (s.gstore k = none ∨ ∃ v kt, o = .createKey k v kt)))

/-- Every entry of every chunk is filed under the first byte of its key. -/
def Routed (s : Store) : Prop :=
  ∀ (i : Nat) (chunk : Chunk) (k : Key),
    s.store[i]? = some (some chunk) → chunk.rows k ≠ none → k.at0 = i

/-- The store a run ends in (the initial store when the run faults); it names
concrete reachable states. -/
def runStore (fl : Flags) (s : Store) (os : List Op) : Store :=
  match run fl s os with
  | .ok s2 => s2
  | .error _ => s

/-- The store built by `NewStore` after `CreateKey` on a key of chunk 3. -/
def sampleStore : Store :=
  runStore ⟨false, true⟩ NewStore [.createKey (mkKey 3 7) (.int32 5) .SUM]

/-- The lookup of `k` succeeds: `Get` returns with a nil error. -/
def Found (fl : Flags) (s : Store) (k : Key) : Prop :=
  ∃ p, Get fl s k = .ok (p, none)

/-! ## Sequences of merges and sample records -/

/-- The value `x` fits the Go type `int32`. -/
def isInt32 (x : Int) : Prop := -2147483648 ≤ x ∧ x ≤ 2147483647

instance (x : Int) : Decidable (isInt32 x) := by
  unfold isInt32; infer_instance

/-- The calls `Set(br, v, op)` for the values of a list, applied in order to the
same record; the first fault ends the sequence. -/
def SetAll (br : BRecord) (op : KeyType) : List Value → Except Fault BRecord
  | [] => .ok br
  | v :: vs =>
    match Set br v op with
    | .error e => .error e
    | .ok br2 => SetAll br2 op vs

/-- The calls `SetInt32(br, v, op)` for the values of a list, applied in order. -/
def SetInt32All (br : BRecord) (op : KeyType) (vs : List Int) : BRecord :=
  vs.foldl (fun b v => SetInt32 b v op) br

/-- A record with the given scalar and generic value, not held, with an empty
list. -/
def sampleRecord (p : Int) (s : Value) : BRecord :=
  { key := mkKey 3 7, key_type := .OOWRITE, value := s, int_value := p, entries := [],
    lock := none }

/-- The value does not have the representation the tag expects, in the words of
the spec: SUM and MAX expect an int32; LIST expects an Entry or null; OOWRITE
expects an Overwrite or null; WRITE accepts every value. -/
def typeMismatch (v : Value) (op : KeyType) : Prop :=
  match op with
  | .SUM => ∀ x, v ≠ .int32 x
  | .MAX => ∀ x, v ≠ .int32 x
  | .WRITE => False
  | .LIST => v ≠ .nil ∧ ∀ e, v ≠ .entry e
  | .OOWRITE => v ≠ .nil ∧ ∀ i x, v ≠ .overwrite i x

/-- The chunk array is as `NewStore` built it: `CHUNKS` slots, none of them
nil. -/
def ChunksReady (s : Store) : Prop :=
  s.store.length = CHUNKS ∧ ∀ i, i < CHUNKS → ∃ c, s.store[i]? = some (some c)

/-! ## Auxiliary lemmas -/

/-- A record made by `MakeBR` is not held. -/
theorem MakeBR_lock (k : Key) (v : Value) (kt : KeyType) : (MakeBR k v kt).lock = none := by
  cases kt <;> cases v <;> rfl

/-- Locking the record just allocated succeeds and marks it held. -/
theorem alloc_lockRecord (s : Store) (k : Key) (kt : KeyType) (mode : LockMode) :
    (s.alloc (MakeBR k .nil kt)).2.lockRecord (s.alloc (MakeBR k .nil kt)).1 mode
      = .ok (lockedNew s k kt mode) := by
  simp [Store.alloc, Store.lockRecord, MakeBR_lock, lockedNew]

/-- Locked creation in the flat backend, by cases on the entry of `k`. -/
theorem createWithLock_flat (fl : Flags) (hG : fl.GStore = true) (mode : LockMode) (s : Store)
    (k : Key) (kt : KeyType) :
    createWithLock fl mode s k kt =
      match s.gstore k with
      | none => .ok ((some s.heap.length, none),
          { lockedNew s k kt mode with gstore := mapSet s.gstore k (some s.heap.length) })
      | some _ => .ok ((none, some .EEXISTS), lockedNew s k kt mode) := by
  cases mode <;>
  · simp only [createWithLock, CreateLockedKey, CreateMuLockedKey, CreateMuRLockedKey]
    rw [alloc_lockRecord]
    cases h : s.gstore k <;>
      simp [hG, gPutIfMissing, lockedNew, Store.alloc, h]

/-- Locked creation in the partitioned backend, by cases on chunk `k[0]` and on
the entry of `k`. -/
theorem createWithLock_part (fl : Flags) (hG : fl.GStore = false) (mode : LockMode) (s : Store)
    (k : Key) (kt : KeyType) :
    createWithLock fl mode s k kt =
      match s.store[k.at0]? with
      | none => .error .panicIndex
      | some none => .error .panicNilDeref
      | some (some chunk) =>
        match chunk.rows k with
        | none => .ok ((some s.heap.length, none),
            (lockedNew s k kt mode).setRow k.at0 chunk k (some s.heap.length))
        | some _ => .ok ((none, some .EEXISTS), lockedNew s k kt mode) := by
  cases mode <;>
  · simp only [createWithLock, CreateLockedKey, CreateMuLockedKey, CreateMuRLockedKey]
    rw [alloc_lockRecord]
    rcases h : s.store[k.at0]? with _ | _ | chunk
    · simp [hG, lockedNew, h]
    · simp [hG, lockedNew, h]
    · cases h2 : chunk.rows k <;>
        simp [hG, lockedNew, Store.alloc, h, h2, mapGet]

/-- The stores a locked creation goes through in the flat backend: after
`MakeBR`, after the lock, after `PutIfMissing`. -/
theorem createWithLockTrace_flat (fl : Flags) (hG : fl.GStore = true) (mode : LockMode)
    (s : Store) (k : Key) (kt : KeyType) :
    createWithLockTrace fl mode s k kt =
      [(s.alloc (MakeBR k .nil kt)).2, lockedNew s k kt mode,
        { lockedNew s k kt mode with
          gstore := (gPutIfMissing s.gstore k (some s.heap.length)).2 }] := by
  cases mode <;>
  · simp only [createWithLockTrace, CreateLockedKey, CreateMuLockedKey, CreateMuRLockedKey]
    rw [alloc_lockRecord]
    cases h : s.gstore k <;>
      simp [hG, gPutIfMissing, lockedNew, Store.alloc, h]

/-- The stores a locked creation goes through in the partitioned backend: after
`MakeBR`, after the lock, and after the insertion when the key has no entry. -/
theorem createWithLockTrace_part (fl : Flags) (hG : fl.GStore = false) (mode : LockMode)
    (s : Store) (k : Key) (kt : KeyType) :
    createWithLockTrace fl mode s k kt =
      match s.store[k.at0]? with
      | some (some chunk) =>
        match chunk.rows k with
        | none => [(s.alloc (MakeBR k .nil kt)).2, lockedNew s k kt mode,
            (lockedNew s k kt mode).setRow k.at0 chunk k (some s.heap.length)]
        | some _ => [(s.alloc (MakeBR k .nil kt)).2, lockedNew s k kt mode]
      | _ => [(s.alloc (MakeBR k .nil kt)).2, lockedNew s k kt mode] := by
  cases mode <;>
  · simp only [createWithLockTrace, CreateLockedKey, CreateMuLockedKey, CreateMuRLockedKey]
    rw [alloc_lockRecord]
    rcases h : s.store[k.at0]? with _ | _ | chunk
    · simp [hG, lockedNew, h]
    · simp [hG, lockedNew, h]
    · cases h2 : chunk.rows k <;>
        simp [hG, lockedNew, Store.alloc, h, h2, mapGet]

theorem lockedNew_heap_old (s : Store) (k : Key) (kt : KeyType) (mode : LockMode) (a : Nat)
    (ha : a < s.heap.length) : (lockedNew s k kt mode).heap[a]? = s.heap[a]? := by
  simp [lockedNew, List.getElem?_append_left ha]

theorem Key.len_ne_zero (k : Key) : ¬ (k.len = 0) := by
  simp [Key.len, k.property]

set_option maxRecDepth 100000 in
theorem NewStore_store : NewStore.store = List.replicate 256 (some { rows := fun _ => none }) := by
  rfl

theorem getKey_flat (fl : Flags) (hG : fl.GStore = true) (s : Store) (k : Key) :
    getKey fl s k =
      match s.gstore k with
      | none => .ok (none, some .ENOKEY)
      | some p => .ok (p, none) := by
  cases h : s.gstore k <;> simp [getKey, Key.len_ne_zero, hG, gGet, mapGet, h]

theorem getKeyStatic_ready (s : Store) (k : Key) (chunk : Chunk)
    (hc : s.store[k.at0]? = some (some chunk)) :
    getKeyStatic s k =
      match chunk.rows k with
      | some (some a) => .ok (some a, none)
      | _ => .ok (none, some .ENOKEY) := by
  rcases h : chunk.rows k with _ | _ | a <;>
    simp [getKeyStatic, Key.len_ne_zero, mapGet, hc, h]

theorem getKey_part (fl : Flags) (hG : fl.GStore = false) (s : Store) (k : Key) (chunk : Chunk)
    (hc : s.store[k.at0]? = some (some chunk)) :
    getKey fl s k =
      match chunk.rows k with
      | some (some a) => .ok (some a, none)
      | _ => .ok (none, some .ENOKEY) := by
  cases hU : fl.UseRLocks
  · simp only [getKey, Key.len_ne_zero, hG, hU]
    simpa using getKeyStatic_ready s k chunk hc
  · rcases h : chunk.rows k with _ | _ | a <;>
      simp [getKey, Key.len_ne_zero, mapGet, hc, h, hG, hU]

theorem setRow_lookup (s : Store) (k : Key) (chunk c0 : Chunk) (br : Ptr)
    (hc : s.store[k.at0]? = some (some c0)) :
    (s.setRow k.at0 chunk k br).store[k.at0]? = some (some { rows := mapSet chunk.rows k br }) := by
  have hlt : k.at0 < s.store.length := by
    by_contra hge
    rw [List.getElem?_eq_none (by omega)] at hc
    cases hc
  simp [Store.setRow, List.getElem?_set, hlt]

theorem setRow_lookup_ne (s : Store) (i j : Nat) (chunk : Chunk) (k : Key) (br : Ptr)
    (hij : i ≠ j) : (s.setRow i chunk k br).store[j]? = s.store[j]? := by
  simp [Store.setRow, List.getElem?_set, hij]

theorem CreateKey_flat (fl : Flags) (hG : fl.GStore = true) (s : Store) (k : Key) (v : Value)
    (kt : KeyType) :
    CreateKey fl s k v kt = .ok (some s.heap.length,
      { s with heap := s.heap ++ [MakeBR k v kt],
               gstore := mapSet s.gstore k (some s.heap.length) }) := by
  simp [CreateKey, hG, Store.alloc, gPut]

theorem CreateKey_part (fl : Flags) (hG : fl.GStore = false) (s : Store) (k : Key) (v : Value)
    (kt : KeyType) :
    CreateKey fl s k v kt =
      match s.store[k.at0]? with
      | none => .error .panicIndex
      | some none => .error .panicNilDeref
      | some (some chunk) => .ok (some s.heap.length,
          { s with heap := s.heap ++ [MakeBR k v kt],
                   store := s.store.set k.at0 (some { rows := mapSet chunk.rows k (some s.heap.length) }) }) := by
  rcases h : s.store[k.at0]? with _ | _ | chunk <;>
    simp [CreateKey, hG, Store.alloc, Store.setRow, h]

theorem getOrCreateTypedKey_flat (fl : Flags) (hG : fl.GStore = true) (s : Store) (k : Key)
    (v : Value) (kt : KeyType) :
    getOrCreateTypedKey fl s k v kt =
      match s.gstore k with
      | none => .ok (none,
          { s with heap := s.heap ++ [MakeBR k v kt],
                   gstore := mapSet s.gstore k (some s.heap.length) })
      | some p => .ok (p, s) := by
  rw [getOrCreateTypedKey, getKey_flat fl hG]
  cases h : s.gstore k <;>
    simp [hG, gGet, mapGet, gPutIfMissing, Store.alloc, h]

theorem getOrCreateTypedKey_locked (fl : Flags) (hG : fl.GStore = false)
    (hU : fl.UseRLocks = true) (s : Store) (k : Key) (v : Value) (kt : KeyType) :
    getOrCreateTypedKey fl s k v kt =
      match s.store[k.at0]? with
      | none => .error .panicIndex
      | some none => .error .fatalNoChunk
      | some (some chunk) =>
        match chunk.rows k with
        | none => .ok (some s.heap.length,
            { s with heap := s.heap ++ [MakeBR k v kt],
                     store := s.store.set k.at0
                       (some { rows := mapSet chunk.rows k (some s.heap.length) }) })
        | some p => .ok (p, s) := by
  rcases h : s.store[k.at0]? with _ | _ | chunk
  · simp [getOrCreateTypedKey, getKey, Key.len_ne_zero, hG, hU, h]
  · simp [getOrCreateTypedKey, getKey, Key.len_ne_zero, hG, hU, h]
  · rw [getOrCreateTypedKey, getKey_part fl hG s k chunk h]
    rcases h2 : chunk.rows k with _ | _ | a <;>
      simp [hG, hU, h, h2, mapGet, Store.alloc, Store.setRow]

theorem getOrCreateTypedKey_static (fl : Flags) (hG : fl.GStore = false)
    (hU : fl.UseRLocks = false) (s : Store) (k : Key) (v : Value) (kt : KeyType) :
    getOrCreateTypedKey fl s k v kt =
      match s.store[k.at0]? with
      | none => .error .panicIndex
      | some none => .error .fatalNoChunk
      | some (some chunk) =>
        match chunk.rows k with
        | some (some a) => .ok (some a, s)
        | _ => .error .fatalNotPreallocated := by
  rcases h : s.store[k.at0]? with _ | _ | chunk
  · simp [getOrCreateTypedKey, getKey, getKeyStatic, Key.len_ne_zero, hG, hU, h]
  · simp [getOrCreateTypedKey, getKey, getKeyStatic, Key.len_ne_zero, hG, hU, h]
  · rw [getOrCreateTypedKey, getKey_part fl hG s k chunk h]
    rcases h2 : chunk.rows k with _ | _ | a <;>
      simp [hG, hU, h, h2]

theorem modify_shape (fl : Flags) (s s2 : Store) (o : Op) (br : Ptr)
    (f : BRecord → Except Fault BRecord) (h : s.modify br f = .ok s2) :
    StepShape fl s o s2 := by
  unfold Store.modify at h
  rcases br with _ | a
  · cases h
  · dsimp only at h
    rcases hr : s.heap[a]? with _ | r
    · rw [hr] at h; cases h
    · rw [hr] at h
      dsimp only at h
      rcases hf : f r with e | r2
      · rw [hf] at h; cases h
      · rw [hf] at h
        simp only [Except.ok.injEq] at h
        subst h
        exact ⟨rfl, rfl, by simp, Or.inl ⟨rfl, rfl⟩⟩

theorem createWithLock_shape (fl : Flags) (mode : LockMode) (s s2 : Store) (o : Op) (k : Key)
    (kt : KeyType) (ho : o.key = some k) (h : (createWithLock fl mode s k kt).map Prod.snd = .ok s2) :
    StepShape fl s o s2 := by
  cases hG : fl.GStore
  · rw [createWithLock_part fl hG] at h
    rcases hc : s.store[k.at0]? with _ | _ | chunk
    · rw [hc] at h; cases h
    · rw [hc] at h; cases h
    · rw [hc] at h
      dsimp only at h
      cases h2 : chunk.rows k
      · rw [h2] at h
        simp only [Except.map, Except.ok.injEq] at h
        subst h
        refine ⟨rfl, rfl, by simp [Store.setRow, lockedNew], Or.inr (Or.inl ⟨k, chunk, ho, hG, hc, ?_⟩)⟩
        exact ⟨rfl, rfl, by simp [Store.setRow, lockedNew], Or.inl h2⟩
      · rw [h2] at h
        simp only [Except.map, Except.ok.injEq] at h
        subst h
        exact ⟨rfl, rfl, by simp [lockedNew], Or.inl ⟨rfl, rfl⟩⟩
  · rw [createWithLock_flat fl hG] at h
    cases h2 : s.gstore k
    · rw [h2] at h
      simp only [Except.map, Except.ok.injEq] at h
      subst h
      refine ⟨rfl, rfl, by simp [lockedNew], Or.inr (Or.inr ⟨k, ho, hG, rfl, rfl, ?_, Or.inl h2⟩)⟩
      simp [lockedNew]
    · rw [h2] at h
      simp only [Except.map, Except.ok.injEq] at h
      subst h
      exact ⟨rfl, rfl, by simp [lockedNew], Or.inl ⟨rfl, rfl⟩⟩

theorem CreateKey_shape (fl : Flags) (s s2 : Store) (k : Key) (v : Value)
    (kt : KeyType) (h : (CreateKey fl s k v kt).map Prod.snd = .ok s2) :
    StepShape fl s (.createKey k v kt) s2 := by
  cases hG : fl.GStore
  · rw [CreateKey_part fl hG] at h
    rcases hc : s.store[k.at0]? with _ | _ | chunk
    · rw [hc] at h; cases h
    · rw [hc] at h; cases h
    · rw [hc] at h
      simp only [Except.map, Except.ok.injEq] at h
      subst h
      exact ⟨rfl, rfl, by simp, Or.inr (Or.inl ⟨k, chunk, rfl, hG, hc, rfl, rfl, by simp,
        Or.inr ⟨v, kt, rfl⟩⟩)⟩
  · rw [CreateKey_flat fl hG] at h
    simp only [Except.map, Except.ok.injEq] at h
    subst h
    exact ⟨rfl, rfl, by simp, Or.inr (Or.inr ⟨k, rfl, hG, rfl, rfl, by simp, Or.inr ⟨v, kt, rfl⟩⟩)⟩

theorem getOrCreateTypedKey_shape (fl : Flags) (s s2 : Store) (o : Op) (k : Key) (v : Value)
    (kt : KeyType) (ho : o.key = some k) (h : (getOrCreateTypedKey fl s k v kt).map Prod.snd = .ok s2) :
    StepShape fl s o s2 := by
  cases hG : fl.GStore
  · cases hU : fl.UseRLocks
    · rw [getOrCreateTypedKey_static fl hG hU] at h
      rcases hc : s.store[k.at0]? with _ | _ | chunk
      · rw [hc] at h; cases h
      · rw [hc] at h; cases h
      · rw [hc] at h
        dsimp only at h
        rcases h2 : chunk.rows k with _ | _ | a
        · rw [h2] at h; cases h
        · rw [h2] at h; cases h
        · rw [h2] at h
          simp only [Except.map, Except.ok.injEq] at h
          subst h
          exact ⟨rfl, rfl, le_refl _, Or.inl ⟨rfl, rfl⟩⟩
    · rw [getOrCreateTypedKey_locked fl hG hU] at h
      rcases hc : s.store[k.at0]? with _ | _ | chunk
      · rw [hc] at h; cases h
      · rw [hc] at h; cases h
      · rw [hc] at h
        dsimp only at h
        cases h2 : chunk.rows k
        · rw [h2] at h
          simp only [Except.map, Except.ok.injEq] at h
          subst h
          exact ⟨rfl, rfl, by simp, Or.inr (Or.inl ⟨k, chunk, ho, hG, hc, rfl, rfl, by simp,
            Or.inl h2⟩)⟩
        · rw [h2] at h
          simp only [Except.map, Except.ok.injEq] at h
          subst h
          exact ⟨rfl, rfl, le_refl _, Or.inl ⟨rfl, rfl⟩⟩
  · rw [getOrCreateTypedKey_flat fl hG] at h
    cases h2 : s.gstore k
    · rw [h2] at h
      simp only [Except.map, Except.ok.injEq] at h
      subst h
      exact ⟨rfl, rfl, by simp, Or.inr (Or.inr ⟨k, ho, hG, rfl, rfl, by simp, Or.inl h2⟩)⟩
    · rw [h2] at h
      simp only [Except.map, Except.ok.injEq] at h
      subst h
      exact ⟨rfl, rfl, le_refl _, Or.inl ⟨rfl, rfl⟩⟩

/-- Every successful operation has the shape `StepShape`. -/
theorem step_shape (fl : Flags) (s s2 : Store) (o : Op) (h : step fl s o = .ok s2) :
    StepShape fl s o s2 := by
  cases o with
  | createKey k v kt => exact CreateKey_shape fl s s2 k v kt h
  | getOrCreateTypedKey k v kt => exact getOrCreateTypedKey_shape fl s s2 _ k v kt rfl h
  | createLockedKey k kt => exact createWithLock_shape fl .exclusive s s2 _ k kt rfl h
  | createMuLockedKey k kt => exact createWithLock_shape fl .slock s s2 _ k kt rfl h
  | createMuRLockedKey k kt => exact createWithLock_shape fl .srlock s s2 _ k kt rfl h
  | get k =>
    simp only [step] at h
    rcases hg : Get fl s k with e | r
    · rw [hg] at h; cases h
    · rw [hg] at h
      simp only [Except.map, Except.ok.injEq] at h
      subst h
      exact ⟨rfl, rfl, le_refl _, Or.inl ⟨rfl, rfl⟩⟩
  | set br v op => exact modify_shape fl s s2 _ br (fun r => Set r v op) h
  | setInt32 br v op => exact modify_shape fl s s2 _ br (fun r => .ok (SetInt32 r v op)) h
  | setList br ve op => exact modify_shape fl s s2 _ br (fun r => .ok (SetList r ve op)) h
  | setOO br a v op => exact modify_shape fl s s2 _ br (fun r => .ok (SetOO r a v op)) h
  | isDD k =>
    simp only [step, Except.ok.injEq] at h
    subst h
    exact ⟨rfl, rfl, le_refl _, Or.inl ⟨rfl, rfl⟩⟩

theorem getElem?_lt_of_eq_some {α : Type} (l : List α) (i : Nat) (x : α)
    (h : l[i]? = some x) : i < l.length := by
  by_contra hge
  rw [List.getElem?_eq_none (by omega)] at h
  cases h

/-- After an operation the entry of a key is what it was, or the new record;
the latter only for a key that had no entry or under `CreateKey`. -/
theorem shape_resident (fl : Flags) (s s2 : Store) (o : Op) (h : StepShape fl s o s2)
    (j : Key) :
    resident fl s2 j = resident fl s j ∨
    (resident fl s2 j = some (some s.heap.length) ∧
      (resident fl s j = none ∨ ∃ v kt, o = .createKey j v kt)) := by
  obtain ⟨-, -, -, h | ⟨k, chunk, -, hG, hc, hs, -, -, hk⟩ | ⟨k, -, hG, -, hg, -, hk⟩⟩ := h
  · left
    simp [resident, h.1, h.2]
  · have hlt := getElem?_lt_of_eq_some _ _ _ hc
    by_cases hjk : j = k
    · subst hjk
      right
      refine ⟨by simp [resident, hG, hs, List.getElem?_set, hlt, mapSet], ?_⟩
      rcases hk with hk | hk
      · left; simp [resident, hG, hc, hk]
      · right; exact hk
    · left
      by_cases hb : j.at0 = k.at0
      · simp [resident, hG, hs, hb, List.getElem?_set, hlt, mapSet, hjk, hc]
      · simp [resident, hG, hs, List.getElem?_set, Ne.symm hb]
  · by_cases hjk : j = k
    · subst hjk
      right
      refine ⟨by simp [resident, hG, hg, mapSet], ?_⟩
      rcases hk with hk | hk
      · left; simp [resident, hG, hk]
      · right; exact hk
    · left
      simp [resident, hG, hg, mapSet, hjk]

/-- An initialised chunk stays initialised. -/
theorem shape_chunk (fl : Flags) (s s2 : Store) (o : Op) (h : StepShape fl s o s2)
    (i : Nat) (c : Chunk) (hc : s.store[i]? = some (some c)) :
    ∃ c2, s2.store[i]? = some (some c2) := by
  obtain ⟨-, -, -, h | ⟨k, chunk, -, -, hck, hs, -, -, -⟩ | ⟨k, -, -, hs, -, -, -⟩⟩ := h
  · exact ⟨c, by rw [h.1]; exact hc⟩
  · have hlt := getElem?_lt_of_eq_some _ _ _ hck
    by_cases hi : k.at0 = i
    · subst hi
      exact ⟨{ rows := mapSet chunk.rows k (some s.heap.length) },
        by rw [hs]; simp [List.getElem?_set, hlt]⟩
    · exact ⟨c, by rw [hs]; simp [List.getElem?_set, hi, hc]⟩
  · exact ⟨c, by rw [hs]; exact hc⟩

/-- Operations preserve the routing invariant. -/
theorem shape_routed (fl : Flags) (s s2 : Store) (o : Op) (h : StepShape fl s o s2)
    (hr : Routed s) : Routed s2 := by
  unfold Routed at hr ⊢
  obtain ⟨-, -, -, h | ⟨k, chunk, -, -, hck, hs, -, -, -⟩ | ⟨k, -, -, hs, -, -, -⟩⟩ := h
  · intro i c j hc hj
    rw [h.1] at hc
    exact hr i c j hc hj
  · have hlt := getElem?_lt_of_eq_some _ _ _ hck
    intro i c j hc hj
    rw [hs] at hc
    by_cases hi : k.at0 = i
    · subst hi
      simp only [List.getElem?_set, hlt, if_true, Option.some.injEq] at hc
      subst hc
      by_cases hjk : j = k
      · rw [hjk]
      · simp only [mapSet, hjk, if_false] at hj
        exact hr _ chunk j hck hj
    · simp only [List.getElem?_set, hi, if_false] at hc
      exact hr i c j hc hj
  · intro i c j hc hj
    rw [hs] at hc
    exact hr i c j hc hj

theorem NewStore_routed : Routed NewStore := by
  unfold Routed
  intro i chunk k hc hk
  rw [NewStore_store, List.getElem?_replicate] at hc
  split at hc
  · simp only [Option.some.injEq] at hc
    subst hc
    exact absurd rfl hk
  · cases hc

theorem run_routed (fl : Flags) (os : List Op) (s s2 : Store) (hr : Routed s)
    (h : run fl s os = .ok s2) : Routed s2 := by
  induction os generalizing s with
  | nil =>
    simp only [run, Except.ok.injEq] at h
    subst h
    exact hr
  | cons o os ih =>
    simp only [run] at h
    rcases hst : step fl s o with e | s1
    · rw [hst] at h; cases h
    · rw [hst] at h
      exact ih s1 (shape_routed fl s s1 o (step_shape fl s s1 o hst) hr) h

/-- The partitioned lookup on both paths, by cases on chunk `k[0]`. -/
theorem getKey_part_gen (fl : Flags) (hG : fl.GStore = false) (s : Store) (k : Key) :
    getKey fl s k =
      match s.store[k.at0]? with
      | none => .error .panicIndex
      | some none => .error .fatalNoChunk
      | some (some chunk) =>
        match chunk.rows k with
        | some (some a) => .ok (some a, none)
        | _ => .ok (none, some .ENOKEY) := by
  rcases h : s.store[k.at0]? with _ | _ | chunk
  · cases hU : fl.UseRLocks <;> simp [getKey, getKeyStatic, Key.len_ne_zero, hG, hU, h]
  · cases hU : fl.UseRLocks <;> simp [getKey, getKeyStatic, Key.len_ne_zero, hG, hU, h]
  · exact getKey_part fl hG s k chunk h

/-- A successful lookup in terms of the entry of the key. -/
theorem Found_iff (fl : Flags) (s : Store) (k : Key) :
    Found fl s k ↔
      (fl.GStore = true ∧ ∃ p, resident fl s k = some p) ∨
      (fl.GStore = false ∧ ∃ a, resident fl s k = some (some a)) := by
  unfold Found
  cases hG : fl.GStore
  · rw [Get, getKey_part_gen fl hG]
    simp only [resident, hG]
    rcases hc : s.store[k.at0]? with _ | _ | chunk
    · simp
    · simp
    · dsimp only
      rcases h2 : chunk.rows k with _ | _ | a <;> simp
  · rw [Get, getKey_flat fl hG]
    simp only [resident, hG]
    cases h2 : s.gstore k <;> simp

theorem step_found (fl : Flags) (s s2 : Store) (o : Op) (k : Key)
    (h : step fl s o = .ok s2) (hf : Found fl s k) : Found fl s2 k := by
  rw [Found_iff] at hf ⊢
  rcases shape_resident fl s s2 o (step_shape fl s s2 o h) k with he | ⟨hn, -⟩
  · rw [he]; exact hf
  · rw [hn]
    rcases hf with ⟨hG, -⟩ | ⟨hG, -⟩
    · exact Or.inl ⟨hG, _, rfl⟩
    · exact Or.inr ⟨hG, _, rfl⟩

theorem step_resident_stable (fl : Flags) (s s2 : Store) (o : Op) (k : Key) (r : Ptr)
    (h : step fl s o = .ok s2) (hr : resident fl s k = some r)
    (hck : ∀ v kt, o ≠ .createKey k v kt) : resident fl s2 k = some r := by
  rcases shape_resident fl s s2 o (step_shape fl s s2 o h) k with he | ⟨-, hn | ⟨v, kt, ho⟩⟩
  · rw [he]; exact hr
  · rw [hn] at hr; cases hr
  · exact absurd ho (hck v kt)

/-- An operation on key `k` leaves the chunks other than `k[0]` alone. -/
theorem shape_frame (fl : Flags) (s s2 : Store) (o : Op) (h : StepShape fl s o s2)
    (k : Key) (ho : o.key = some k) (i : Nat) (hi : i ≠ k.at0) :
    s2.store[i]? = s.store[i]? := by
  obtain ⟨-, -, -, h | ⟨j, chunk, hj, -, -, hs, -, -, -⟩ | ⟨j, -, -, hs, -, -, -⟩⟩ := h
  · rw [h.1]
  · rw [ho] at hj
    simp only [Option.some.injEq] at hj
    subst hj
    rw [hs]
    simp [List.getElem?_set, Ne.symm hi]
  · rw [hs]

theorem run_found (fl : Flags) (os : List Op) (s s2 : Store) (k : Key)
    (hf : Found fl s k) (h : run fl s os = .ok s2) : Found fl s2 k := by
  induction os generalizing s with
  | nil =>
    simp only [run, Except.ok.injEq] at h
    subst h
    exact hf
  | cons o os ih =>
    simp only [run] at h
    rcases hst : step fl s o with e | s1
    · rw [hst] at h; cases h
    · rw [hst] at h
      exact ih s1 (step_found fl s s1 o k hst hf) h

/-- Wrapping is idempotent under a further addition. -/
theorem wrap32_add_wrap32 (a d : Int) : wrap32 (wrap32 a + d) = wrap32 (a + d) := by
  unfold wrap32
  omega

/-- Wrapping leaves an `int32` alone. -/
theorem wrap32_of_isInt32 (a : Int) (h : isInt32 a) : wrap32 a = a := by
  unfold wrap32
  unfold isInt32 at h
  omega

/-- A wrapped value is an `int32`. -/
theorem isInt32_wrap32 (a : Int) : isInt32 (wrap32 a) := by
  unfold wrap32 isInt32
  omega

/-- A sequence of SUM merges adds the wrapped sum of the deltas to the scalar. -/
theorem SetAll_SUM (ds : List Int) (br : BRecord) (hbr : isInt32 br.int_value) :
    SetAll br .SUM (ds.map Value.int32)
      = .ok { br with int_value := wrap32 (br.int_value + ds.sum) } := by
  induction ds generalizing br with
  | nil =>
    simp [SetAll, wrap32_of_isInt32 _ hbr]
  | cons d ds ih =>
    simp only [List.map_cons, SetAll, Set, List.sum_cons]
    rw [ih _ (isInt32_wrap32 _)]
    simp only [wrap32_add_wrap32, add_assoc]

/-- One MAX merge through `Set`: the scalar becomes the larger of the two. -/
theorem Set_MAX (br : BRecord) (x : Int) :
    Set br (.int32 x) .MAX = .ok { br with int_value := max br.int_value x } := by
  by_cases h : x > br.int_value
  · simp [Set, h, max_eq_right (le_of_lt h)]
  · have h2 : x ≤ br.int_value := not_lt.mp h
    simp [Set, h, max_eq_left h2]

/-- One MAX merge through `SetInt32`: the scalar becomes the larger of the two. -/
theorem SetInt32_MAX (br : BRecord) (x : Int) :
    SetInt32 br x .MAX = { br with int_value := max br.int_value x } := by
  by_cases h : x > br.int_value
  · simp [SetInt32, h, max_eq_right (le_of_lt h)]
  · have h2 : x ≤ br.int_value := not_lt.mp h
    simp [SetInt32, h, max_eq_left h2]

/-- A sequence of MAX merges through `Set` folds `max` over the values. -/
theorem SetAll_MAX (xs : List Int) (br : BRecord) :
    SetAll br .MAX (xs.map Value.int32)
      = .ok { br with int_value := xs.foldl max br.int_value } := by
  induction xs generalizing br with
  | nil => simp [SetAll]
  | cons x xs ih =>
    simp only [List.map_cons, SetAll, Set_MAX, List.foldl_cons]
    rw [ih]

/-- A sequence of MAX merges through `SetInt32` folds `max` over the values. -/
theorem SetInt32All_MAX (xs : List Int) (br : BRecord) :
    SetInt32All br .MAX xs = { br with int_value := xs.foldl max br.int_value } := by
  induction xs generalizing br with
  | nil => simp [SetInt32All]
  | cons x xs ih =>
    simp only [SetInt32All, List.foldl_cons, SetInt32_MAX] at ih ⊢
    rw [ih]

/-- The fold of `max` is an upper bound of the start value and of the list. -/
theorem foldl_max_ge (xs : List Int) (a : Int) :
    a ≤ xs.foldl max a ∧ ∀ x ∈ xs, x ≤ xs.foldl max a := by
  induction xs generalizing a with
  | nil => simp
  | cons y ys ih =>
    simp only [List.foldl_cons, List.mem_cons]
    obtain ⟨h1, h2⟩ := ih (max a y)
    refine ⟨le_trans (le_max_left a y) h1, ?_⟩
    rintro x (rfl | hx)
    · exact le_trans (le_max_right a x) h1
    · exact h2 x hx

/-- The fold of `max` is the start value or a member of the list. -/
theorem foldl_max_mem (xs : List Int) (a : Int) :
    xs.foldl max a = a ∨ xs.foldl max a ∈ xs := by
  induction xs generalizing a with
  | nil => simp
  | cons y ys ih =>
    simp only [List.foldl_cons, List.mem_cons]
    rcases ih (max a y) with h | h
    · rw [h]
      rcases max_choice a y with hm | hm
      · left; exact hm
      · right; left; exact hm
    · right; right; exact h

/-- `Set` panics on the type assertion exactly on a type mismatch. -/
theorem Set_error_iff (br : BRecord) (v : Value) (op : KeyType) :
    Set br v op = .error .panicTypeAssert ↔ typeMismatch v op := by
  cases op <;> cases v <;> simp [Set, typeMismatch]
  all_goals split <;> simp

/-- `Set` returns a record exactly when there is no type mismatch. -/
theorem Set_ok_iff (br : BRecord) (v : Value) (op : KeyType) :
    (∃ r, Set br v op = .ok r) ↔ ¬ typeMismatch v op := by
  cases op <;> cases v <;> simp [Set, typeMismatch]
  all_goals split <;> simp

/-- A sequence of WRITE merges stores the last value. -/
theorem SetAll_WRITE_last (vs : List Value) (br : BRecord) (v : Value) :
    SetAll br .WRITE (vs ++ [v]) = .ok { br with value := v } := by
  induction vs generalizing br with
  | nil => simp [SetAll, Set]
  | cons w ws ih =>
    simp only [List.cons_append, SetAll, Set]
    exact ih _

/-- An operation keeps the length of the chunk array and which of its slots are
nil. -/
theorem shape_slots (fl : Flags) (s s2 : Store) (o : Op) (h : StepShape fl s o s2) :
    s2.store.map Option.isSome = s.store.map Option.isSome := by
  obtain ⟨-, -, -, h | ⟨k, chunk, -, -, hck, hs, -, -, -⟩ | ⟨k, -, -, hs, -, -, -⟩⟩ := h
  · rw [h.1]
  · rw [hs]
    apply List.ext_getElem?
    intro n
    by_cases hn : k.at0 = n
    · subst hn
      have hlt := getElem?_lt_of_eq_some _ _ _ hck
      rw [List.getElem?_eq_getElem hlt] at hck
      simp only [Option.some.injEq] at hck
      simp [List.getElem?_set, hlt, hck]
    · simp [List.getElem?_set, hn]
  · rw [hs]

/-- The chunk array built by `NewStore` is ready. -/
theorem NewStore_chunksReady : ChunksReady NewStore := by
  refine ⟨by rw [NewStore_store, List.length_replicate]; rfl, ?_⟩
  intro i hi
  refine ⟨{ rows := fun _ => none }, ?_⟩
  rw [NewStore_store, List.getElem?_replicate]
  simp only [CHUNKS] at hi
  simp [hi]

/-- Operations keep the chunk array ready. -/
theorem shape_chunksReady (fl : Flags) (s s2 : Store) (o : Op) (h : StepShape fl s o s2)
    (hr : ChunksReady s) : ChunksReady s2 := by
  refine ⟨?_, ?_⟩
  · have := congrArg List.length (shape_slots fl s s2 o h)
    simp only [List.length_map] at this
    rw [this]
    exact hr.1
  · intro i hi
    obtain ⟨c, hc⟩ := hr.2 i hi
    exact shape_chunk fl s s2 o h i c hc

/-- Runs keep the chunk array ready and its slots as they were. -/
theorem run_chunksReady (fl : Flags) (os : List Op) (s s2 : Store) (hr : ChunksReady s)
    (h : run fl s os = .ok s2) :
    ChunksReady s2 ∧ s2.store.map Option.isSome = s.store.map Option.isSome := by
  induction os generalizing s with
  | nil =>
    simp only [run, Except.ok.injEq] at h
    subst h
    exact ⟨hr, rfl⟩
  | cons o os ih =>
    simp only [run] at h
    rcases hst : step fl s o with e | s1
    · rw [hst] at h; cases h
    · rw [hst] at h
      have hsh := step_shape fl s s1 o hst
      obtain ⟨h1, h2⟩ := ih s1 (shape_chunksReady fl s s1 o hsh hr) h
      exact ⟨h1, h2.trans (shape_slots fl s s1 o hsh)⟩

/-- The first byte of a key indexes the chunk array. -/
theorem Key.at0_lt (k : Key) : k.at0 < CHUNKS := by
  unfold Key.at0 CHUNKS
  exact (k.val.get ⟨0, by rw [k.property]; decide⟩).isLt

/-- The length of a key is 16. -/
theorem Key.len_eq (k : Key) : k.len = 16 := k.property

/-! ## Locked creation (C1, C2) -/

/-- C1: each of the three locked-creation operations returns (nil, EEXISTS) exactly
when the key already has an entry in the active backend, and in that case the
chunk array, the flat map, the hot-key index and every record that existed
before the call are what they were. -/
theorem createWithLock_eexists_iff_present (fl : Flags) (mode : LockMode) (s : Store)
    (k : Key) (kt : KeyType) :
    ((∃ s2, createWithLock fl mode s k kt = .ok ((none, some .EEXISTS), s2))
        ↔ (resident fl s k).isSome = true) ∧
    (∀ p s2, createWithLock fl mode s k kt = .ok ((p, some .EEXISTS), s2) →
        p = none ∧ s2.store = s.store ∧ s2.gstore = s.gstore ∧ s2.dd = s.dd ∧
        s2.any_dd = s.any_dd ∧ resident fl s2 k = resident fl s k ∧
        (∀ a, a < s.heap.length → s2.heap[a]? = s.heap[a]?)) := by
  cases hG : fl.GStore
  · rw [createWithLock_part fl hG]
    simp only [resident, hG]
    rcases h : s.store[k.at0]? with _ | _ | chunk
    · simp
    · simp
    · dsimp only
      cases h2 : chunk.rows k
      · simp
      · refine ⟨by simp, ?_⟩
        intro p s2 hr
        simp only [Except.ok.injEq, Prod.mk.injEq, and_true] at hr
        obtain ⟨hp, rfl⟩ := hr
        refine ⟨hp.symm, rfl, rfl, rfl, rfl, ?_, fun a ha => lockedNew_heap_old s k kt mode a ha⟩
        have h3 : (lockedNew s k kt mode).store[k.at0]? = some (some chunk) := h
        simp [h3, h2]
  · rw [createWithLock_flat fl hG]
    simp only [resident, hG]
    cases h2 : s.gstore k
    · simp
    · refine ⟨by simp, ?_⟩
      intro p s2 hr
      simp only [Except.ok.injEq, Prod.mk.injEq, and_true] at hr
      obtain ⟨hp, rfl⟩ := hr
      exact ⟨hp.symm, rfl, rfl, rfl, rfl, by simp [lockedNew, h2],
        fun a ha => lockedNew_heap_old s k kt mode a ha⟩

set_option maxRecDepth 100000 in
/-- C1 at a concrete input: on a store where a key of chunk 3 is resident, an
exclusive locked creation on that key returns (nil, EEXISTS). -/
theorem createWithLock_eexists_iff_present_witness :
    (resident ⟨false, true⟩ sampleStore (mkKey 3 7)).isSome = true ∧
    ∃ s2, createWithLock ⟨false, true⟩ .exclusive sampleStore (mkKey 3 7) .WRITE
      = .ok ((none, some .EEXISTS), s2) :=
  ⟨by rfl,
    (createWithLock_eexists_iff_present ⟨false, true⟩ .exclusive sampleStore (mkKey 3 7)
      .WRITE).1.mpr (by rfl)⟩

/-- C2: on a key with no entry (chunk `k[0]` initialised in the partitioned
backend) each locked creation goes through exactly three stores, in program
order: after `MakeBR` the new record sits at a fresh address, not held, and the
key has no entry; after the lock acquisition the record is held in the
requested mode and the key still has no entry; only the third store publishes
the record under `k`, changing no other entry and no record.  In no store of
the call, the initial one included, does `k` have an entry whose record is not
held in the requested mode.  The call returns that record with no error, `Get`
then returns exactly it, and a second locked creation on the same key returns
EEXISTS. -/
theorem createWithLock_fresh (fl : Flags) (mode : LockMode) (s : Store) (k : Key)
    (kt : KeyType) (habs : resident fl s k = none)
    (hready : fl.GStore = false → chunkReady s k) :
    ∃ s1 s2 s3,
      createWithLockTrace fl mode s k kt = [s1, s2, s3] ∧
      createWithLock fl mode s k kt = .ok ((some s.heap.length, none), s3) ∧
      s.heap[s.heap.length]? = none ∧
      s.alloc (MakeBR k .nil kt) = (some s.heap.length, s1) ∧
      s1.heap[s.heap.length]? = some (MakeBR k .nil kt) ∧
      resident fl s1 k = none ∧
      s1.lockRecord (some s.heap.length) mode = .ok s2 ∧
      s2.heap[s.heap.length]? = some { MakeBR k .nil kt with lock := some mode } ∧
      resident fl s2 k = none ∧
      s3.heap = s2.heap ∧
      resident fl s3 k = some (some s.heap.length) ∧
      (∀ j, j ≠ k → resident fl s3 j = resident fl s j) ∧
      (∀ t, t ∈ s :: createWithLockTrace fl mode s k kt → ∀ p, resident fl t k = some p →
        p = some s.heap.length ∧
        ∃ r, t.heap[s.heap.length]? = some r ∧ r.lock = some mode) ∧
      Get fl s3 k = .ok (some s.heap.length, none) ∧
      (∀ mode2 kt2, ∃ s4,
        createWithLock fl mode2 s3 k kt2 = .ok ((none, some .EEXISTS), s4)) := by
  have hlock := alloc_lockRecord s k kt mode
  have hnew : (lockedNew s k kt mode).heap[s.heap.length]?
      = some { MakeBR k .nil kt with lock := some mode } := by
    simp [lockedNew]
  have hnew1 : (s.alloc (MakeBR k .nil kt)).2.heap[s.heap.length]? = some (MakeBR k .nil kt) := by
    simp [Store.alloc]
  cases hG : fl.GStore
  · obtain ⟨chunk, hc⟩ := hready hG
    have hrow : chunk.rows k = none := by
      simpa [resident, hG, hc] using habs
    have hc1 : (s.alloc (MakeBR k .nil kt)).2.store[k.at0]? = some (some chunk) := hc
    have hc2 : (lockedNew s k kt mode).store[k.at0]? = some (some chunk) := hc
    have hc3 := setRow_lookup (lockedNew s k kt mode) k chunk chunk (some s.heap.length) hc2
    have hr1 : resident fl (s.alloc (MakeBR k .nil kt)).2 k = none := by
      simp [resident, hG, hc1, hrow]
    have hr2 : resident fl (lockedNew s k kt mode) k = none := by
      simp [resident, hG, hc2, hrow]
    have hr3 : resident fl ((lockedNew s k kt mode).setRow k.at0 chunk k (some s.heap.length)) k
        = some (some s.heap.length) := by
      simp [resident, hG, hc3, mapSet]
    have htr : createWithLockTrace fl mode s k kt =
        [(s.alloc (MakeBR k .nil kt)).2, lockedNew s k kt mode,
          (lockedNew s k kt mode).setRow k.at0 chunk k (some s.heap.length)] := by
      rw [createWithLockTrace_part fl hG]
      simp [hc, hrow]
    refine ⟨(s.alloc (MakeBR k .nil kt)).2, lockedNew s k kt mode,
      (lockedNew s k kt mode).setRow k.at0 chunk k (some s.heap.length),
      htr, ?_, by simp, rfl, hnew1, hr1, hlock, hnew, hr2, rfl, hr3, ?_, ?_, ?_, ?_⟩
    · rw [createWithLock_part fl hG]
      simp [hc, hrow]
    · intro j hj
      simp only [resident, hG]
      by_cases hjk : j.at0 = k.at0
      · rw [hjk, hc3]
        simp [hc, mapSet, hj]
      · rw [setRow_lookup_ne _ _ _ _ _ _ (Ne.symm hjk)]
        rfl
    · intro t ht p hp
      rw [htr] at ht
      simp only [List.mem_cons, List.mem_singleton, List.not_mem_nil, or_false] at ht
      rcases ht with rfl | rfl | rfl | rfl
      · rw [habs] at hp; cases hp
      · rw [hr1] at hp; cases hp
      · rw [hr2] at hp; cases hp
      · rw [hr3] at hp
        simp only [Option.some.injEq] at hp
        exact ⟨hp.symm, _, hnew, rfl⟩
    · rw [Get, getKey_part fl hG _ k _ hc3]
      simp [mapSet]
    · intro mode2 kt2
      rw [createWithLock_part fl hG]
      simp [hc3, mapSet]
  · have hrow : s.gstore k = none := by
      simpa [resident, hG] using habs
    have hr1 : resident fl (s.alloc (MakeBR k .nil kt)).2 k = none := by
      simp [resident, hG, Store.alloc, hrow]
    have hr2 : resident fl (lockedNew s k kt mode) k = none := by
      simp [resident, hG, lockedNew, hrow]
    have hr3 : resident fl
        { lockedNew s k kt mode with gstore := mapSet s.gstore k (some s.heap.length) } k
        = some (some s.heap.length) := by
      simp [resident, hG, mapSet]
    have htr : createWithLockTrace fl mode s k kt =
        [(s.alloc (MakeBR k .nil kt)).2, lockedNew s k kt mode,
          { lockedNew s k kt mode with gstore := mapSet s.gstore k (some s.heap.length) }] := by
      rw [createWithLockTrace_flat fl hG]
      simp [gPutIfMissing, hrow]
    refine ⟨(s.alloc (MakeBR k .nil kt)).2, lockedNew s k kt mode,
      { lockedNew s k kt mode with gstore := mapSet s.gstore k (some s.heap.length) },
      htr, ?_, by simp, rfl, hnew1, hr1, hlock, hnew, hr2, rfl, hr3, ?_, ?_, ?_, ?_⟩
    · rw [createWithLock_flat fl hG]
      simp [hrow]
    · intro j hj
      simp [resident, hG, mapSet, hj]
    · intro t ht p hp
      rw [htr] at ht
      simp only [List.mem_cons, List.mem_singleton, List.not_mem_nil, or_false] at ht
      rcases ht with rfl | rfl | rfl | rfl
      · rw [habs] at hp; cases hp
      · rw [hr1] at hp; cases hp
      · rw [hr2] at hp; cases hp
      · rw [hr3] at hp
        simp only [Option.some.injEq] at hp
        exact ⟨hp.symm, _, hnew, rfl⟩
    · rw [Get, getKey_flat fl hG]
      simp [mapSet]
    · intro mode2 kt2
      rw [createWithLock_flat fl hG]
      simp [mapSet]

set_option maxRecDepth 100000 in
/-- C2 at a concrete input: exclusive creation of a key of chunk 3 in the store
built by `NewStore`. -/
theorem createWithLock_fresh_witness :
    resident ⟨false, true⟩ NewStore (mkKey 3 7) = none ∧
    ((⟨false, true⟩ : Flags).GStore = false → chunkReady NewStore (mkKey 3 7)) ∧
    ∃ s1 s2 s3,
      createWithLockTrace ⟨false, true⟩ .exclusive NewStore (mkKey 3 7) .WRITE = [s1, s2, s3] ∧
      createWithLock ⟨false, true⟩ .exclusive NewStore (mkKey 3 7) .WRITE
        = .ok ((some NewStore.heap.length, none), s3) ∧
      NewStore.heap[NewStore.heap.length]? = none ∧
      NewStore.alloc (MakeBR (mkKey 3 7) .nil .WRITE) = (some NewStore.heap.length, s1) ∧
      s1.heap[NewStore.heap.length]? = some (MakeBR (mkKey 3 7) .nil .WRITE) ∧
      resident ⟨false, true⟩ s1 (mkKey 3 7) = none ∧
      s1.lockRecord (some NewStore.heap.length) .exclusive = .ok s2 ∧
      s2.heap[NewStore.heap.length]?
        = some { MakeBR (mkKey 3 7) .nil .WRITE with lock := some .exclusive } ∧
      resident ⟨false, true⟩ s2 (mkKey 3 7) = none ∧
      s3.heap = s2.heap ∧
      resident ⟨false, true⟩ s3 (mkKey 3 7) = some (some NewStore.heap.length) ∧
      (∀ j, j ≠ mkKey 3 7 → resident ⟨false, true⟩ s3 j = resident ⟨false, true⟩ NewStore j) ∧
      (∀ t, t ∈ NewStore ::
          createWithLockTrace ⟨false, true⟩ .exclusive NewStore (mkKey 3 7) .WRITE →
        ∀ p, resident ⟨false, true⟩ t (mkKey 3 7) = some p →
        p = some NewStore.heap.length ∧
        ∃ r, t.heap[NewStore.heap.length]? = some r ∧ r.lock = some .exclusive) ∧
      Get ⟨false, true⟩ s3 (mkKey 3 7) = .ok (some NewStore.heap.length, none) ∧
      (∀ mode2 kt2, ∃ s4,
        createWithLock ⟨false, true⟩ mode2 s3 (mkKey 3 7) kt2
          = .ok ((none, some .EEXISTS), s4)) :=
  ⟨by rfl, fun _ => ⟨{ rows := fun _ => none }, by rfl⟩,
    createWithLock_fresh ⟨false, true⟩ .exclusive NewStore (mkKey 3 7) .WRITE (by rfl)
      (fun _ => ⟨{ rows := fun _ => none }, by rfl⟩)⟩

/-! ## Create-if-absent and unconditional create (C4, C5, C6) -/

/-- C4: in the partitioned backend with shard locking, on a state whose chunk
`k[0]` is initialised and holds no nil entry for `k`, `getOrCreateTypedKey`
returns a non-nil record that `Get` returns afterwards; a key that was present
keeps its record and the store is unchanged; for a key that was absent the
record is the one newly made from `(k, v, kt)` at a fresh address and the only
change to the store is the added entry. -/
theorem getOrCreateTypedKey_partitioned (fl : Flags) (hG : fl.GStore = false)
    (hU : fl.UseRLocks = true) (s : Store) (k : Key) (v : Value) (kt : KeyType)
    (hready : chunkReady s k) (hnn : resident fl s k ≠ some none) :
    ∃ a s2,
      getOrCreateTypedKey fl s k v kt = .ok (some a, s2) ∧
      Get fl s2 k = .ok (some a, none) ∧
      (∀ p, resident fl s k = some p → p = some a ∧ s2 = s) ∧
      (resident fl s k = none →
        a = s.heap.length ∧ s.heap[a]? = none ∧
        s2.heap = s.heap ++ [MakeBR k v kt] ∧
        s2.gstore = s.gstore ∧ s2.dd = s.dd ∧ s2.any_dd = s.any_dd ∧
        (∀ i, i ≠ k.at0 → s2.store[i]? = s.store[i]?) ∧
        rowsOf s2 k.at0 = mapSet (rowsOf s k.at0) k (some a)) := by
  obtain ⟨chunk, hc⟩ := hready
  have hres : resident fl s k = chunk.rows k := by simp [resident, hG, hc]
  rw [hres] at hnn ⊢
  rw [getOrCreateTypedKey_locked fl hG hU, hc]
  dsimp only
  rcases h2 : chunk.rows k with _ | _ | a
  · have hlt := getElem?_lt_of_eq_some _ _ _ hc
    refine ⟨s.heap.length, _, rfl, ?_, by simp, fun _ => ⟨rfl, by simp, rfl, rfl, rfl, rfl, ?_, ?_⟩⟩
    · rw [Get, getKey_part_gen fl hG]
      simp [List.getElem?_set, hlt, mapSet]
    · intro i hi
      simp [List.getElem?_set, Ne.symm hi]
    · simp [rowsOf, List.getElem?_set, hlt, hc]
  · exact absurd h2 hnn
  · refine ⟨a, s, rfl, ?_, ?_, by simp⟩
    · rw [Get, getKey_part fl hG s k chunk hc, h2]
    · intro p hp
      simp only [Option.some.injEq] at hp
      exact ⟨hp.symm, rfl⟩

set_option maxRecDepth 100000 in
/-- C4 at a concrete input: a key of chunk 3 in the store built by `NewStore`. -/
theorem getOrCreateTypedKey_partitioned_witness :
    chunkReady NewStore (mkKey 3 7) ∧
    resident ⟨false, true⟩ NewStore (mkKey 3 7) ≠ some none ∧
    ∃ a s2,
      getOrCreateTypedKey ⟨false, true⟩ NewStore (mkKey 3 7) (.int32 5) .SUM = .ok (some a, s2) ∧
      Get ⟨false, true⟩ s2 (mkKey 3 7) = .ok (some a, none) ∧
      (∀ p, resident ⟨false, true⟩ NewStore (mkKey 3 7) = some p → p = some a ∧ s2 = NewStore) ∧
      (resident ⟨false, true⟩ NewStore (mkKey 3 7) = none →
        a = NewStore.heap.length ∧ NewStore.heap[a]? = none ∧
        s2.heap = NewStore.heap ++ [MakeBR (mkKey 3 7) (.int32 5) .SUM] ∧
        s2.gstore = NewStore.gstore ∧ s2.dd = NewStore.dd ∧ s2.any_dd = NewStore.any_dd ∧
        (∀ i, i ≠ (mkKey 3 7).at0 → s2.store[i]? = NewStore.store[i]?) ∧
        rowsOf s2 (mkKey 3 7).at0 = mapSet (rowsOf NewStore (mkKey 3 7).at0) (mkKey 3 7) (some a)) :=
  ⟨⟨{ rows := fun _ => none }, by rfl⟩, by decide,
    getOrCreateTypedKey_partitioned ⟨false, true⟩ rfl rfl NewStore (mkKey 3 7) (.int32 5) .SUM
      ⟨{ rows := fun _ => none }, by rfl⟩ (by decide)⟩

set_option maxRecDepth 100000 in
/-- C5: in the flat backend `getOrCreateTypedKey` on an absent key inserts the
new record but returns the nil pointer of the failed lookup: on the store built
by `NewStore` the call returns nil, while `Get` on the resulting store returns
the record at address 0. -/
theorem getOrCreateTypedKey_flat_returns_nil :
    ∃ s2,
      getOrCreateTypedKey ⟨true, true⟩ NewStore (mkKey 3 7) (.int32 5) .SUM = .ok (none, s2) ∧
      Get ⟨true, true⟩ s2 (mkKey 3 7) = .ok (some 0, none) ∧
      s2.heap = [MakeBR (mkKey 3 7) (.int32 5) .SUM] :=
  ⟨_, by rfl, by rfl, by rfl⟩

/-- C6: `CreateKey` (chunk `k[0]` initialised in the partitioned backend) returns
the record newly made from `(k, v, kt)` at a fresh address, whether or not `k`
had an entry; afterwards `Get(k)` returns exactly that record with no error,
and every other key has the entry and the lookup result it had before. -/
theorem CreateKey_publishes (fl : Flags) (s : Store) (k : Key) (v : Value) (kt : KeyType)
    (hready : fl.GStore = false → chunkReady s k) :
    ∃ s2,
      CreateKey fl s k v kt = .ok (some s.heap.length, s2) ∧
      s.heap[s.heap.length]? = none ∧
      s2.heap = s.heap ++ [MakeBR k v kt] ∧
      resident fl s2 k = some (some s.heap.length) ∧
      Get fl s2 k = .ok (some s.heap.length, none) ∧
      (∀ j, j ≠ k → resident fl s2 j = resident fl s j ∧ Get fl s2 j = Get fl s j) := by
  cases hG : fl.GStore
  · obtain ⟨chunk, hc⟩ := hready hG
    have hlt := getElem?_lt_of_eq_some _ _ _ hc
    rw [CreateKey_part fl hG, hc]
    refine ⟨_, rfl, by simp, rfl, ?_, ?_, ?_⟩
    · simp [resident, hG, List.getElem?_set, hlt, mapSet]
    · rw [Get, getKey_part_gen fl hG]
      simp [List.getElem?_set, hlt, mapSet]
    · intro j hj
      simp only [Get, getKey_part_gen fl hG, resident, hG]
      by_cases hb : j.at0 = k.at0
      · simp [hb, List.getElem?_set, hlt, mapSet, hj, hc]
      · simp [List.getElem?_set, Ne.symm hb]
  · rw [CreateKey_flat fl hG]
    refine ⟨_, rfl, by simp, rfl, ?_, ?_, ?_⟩
    · simp [resident, hG, mapSet]
    · rw [Get, getKey_flat fl hG]
      simp [mapSet]
    · intro j hj
      simp [Get, getKey_flat fl hG, resident, hG, mapSet, hj]

set_option maxRecDepth 100000 in
/-- C6 at a concrete input: `CreateKey` on the store built by `NewStore`. -/
theorem CreateKey_publishes_witness :
    ((⟨false, true⟩ : Flags).GStore = false → chunkReady NewStore (mkKey 3 7)) ∧
    ∃ s2,
      CreateKey ⟨false, true⟩ NewStore (mkKey 3 7) (.int32 5) .SUM
        = .ok (some NewStore.heap.length, s2) ∧
      NewStore.heap[NewStore.heap.length]? = none ∧
      s2.heap = NewStore.heap ++ [MakeBR (mkKey 3 7) (.int32 5) .SUM] ∧
      resident ⟨false, true⟩ s2 (mkKey 3 7) = some (some NewStore.heap.length) ∧
      Get ⟨false, true⟩ s2 (mkKey 3 7) = .ok (some NewStore.heap.length, none) ∧
      (∀ j, j ≠ mkKey 3 7 →
        resident ⟨false, true⟩ s2 j = resident ⟨false, true⟩ NewStore j ∧
        Get ⟨false, true⟩ s2 j = Get ⟨false, true⟩ NewStore j) :=
  ⟨fun _ => ⟨{ rows := fun _ => none }, by rfl⟩,
    CreateKey_publishes ⟨false, true⟩ NewStore (mkKey 3 7) (.int32 5) .SUM
      (fun _ => ⟨{ rows := fun _ => none }, by rfl⟩)⟩

/-! ## Invariants of the key-to-record mapping (C7, C8) -/

set_option maxRecDepth 100000 in
/-- C7, as stated, fails: two calls of `CreateKey` on the same key on the store
built by `NewStore` both succeed; after the first the key maps to the record at
address 0, after the second to the record at address 1. -/
theorem CreateKey_replaces_resident :
    ∃ s1 s2,
      run ⟨false, true⟩ NewStore [.createKey (mkKey 3 7) (.int32 5) .SUM] = .ok s1 ∧
      resident ⟨false, true⟩ s1 (mkKey 3 7) = some (some 0) ∧
      run ⟨false, true⟩ s1 [.createKey (mkKey 3 7) (.int32 5) .SUM] = .ok s2 ∧
      resident ⟨false, true⟩ s2 (mkKey 3 7) = some (some 1) ∧
      resident ⟨false, true⟩ s2 (mkKey 3 7) ≠ resident ⟨false, true⟩ s1 (mkKey 3 7) :=
  ⟨_, _, by rfl, by rfl, by rfl, by rfl, by decide⟩

/-- C7, amended: along every sequence of operations that does not call
`CreateKey` on `k`, a key `k` that has a resident record keeps that same record
in every later state: `getOrCreateTypedKey` and the three locked creations
leave an existing entry in place, and `Get`, the merges and `IsDD` do not touch
the mapping. -/
theorem resident_stable_without_CreateKey (fl : Flags) (os : List Op) (s s2 : Store) (k : Key)
    (r : Ptr) (hr : resident fl s k = some r)
    (hck : ∀ v kt, Op.createKey k v kt ∉ os)
    (h : run fl s os = .ok s2) : resident fl s2 k = some r := by
  induction os generalizing s with
  | nil =>
    simp only [run, Except.ok.injEq] at h
    subst h
    exact hr
  | cons o os ih =>
    simp only [run] at h
    rcases hst : step fl s o with e | s1
    · rw [hst] at h; cases h
    · rw [hst] at h
      refine ih s1 (step_resident_stable fl s s1 o k r hst hr ?_) ?_ h
      · intro v kt ho
        exact hck v kt (by rw [ho]; exact List.mem_cons_self _ _)
      · intro v kt hm
        exact hck v kt (List.mem_cons_of_mem _ hm)

set_option maxRecDepth 100000 in
/-- C7 amended, at a concrete input: after `CreateKey` on a key of chunk 3, a
create-if-absent and a locked creation on that key, a `CreateKey` on another
key and a lookup leave the key on the record at address 0. -/
theorem resident_stable_without_CreateKey_witness :
    resident ⟨false, true⟩ sampleStore (mkKey 3 7) = some (some 0) ∧
    (∀ v kt, Op.createKey (mkKey 3 7) v kt ∉
      [Op.getOrCreateTypedKey (mkKey 3 7) (.int32 1) .SUM, Op.createLockedKey (mkKey 3 7) .SUM,
        Op.createKey (mkKey 3 8) .nil .WRITE, Op.get (mkKey 3 7)]) ∧
    run ⟨false, true⟩ sampleStore
      [Op.getOrCreateTypedKey (mkKey 3 7) (.int32 1) .SUM, Op.createLockedKey (mkKey 3 7) .SUM,
        Op.createKey (mkKey 3 8) .nil .WRITE, Op.get (mkKey 3 7)]
      = .ok (runStore ⟨false, true⟩ sampleStore
        [Op.getOrCreateTypedKey (mkKey 3 7) (.int32 1) .SUM, Op.createLockedKey (mkKey 3 7) .SUM,
          Op.createKey (mkKey 3 8) .nil .WRITE, Op.get (mkKey 3 7)]) ∧
    resident ⟨false, true⟩ (runStore ⟨false, true⟩ sampleStore
        [Op.getOrCreateTypedKey (mkKey 3 7) (.int32 1) .SUM, Op.createLockedKey (mkKey 3 7) .SUM,
          Op.createKey (mkKey 3 8) .nil .WRITE, Op.get (mkKey 3 7)]) (mkKey 3 7)
      = some (some 0) :=
  ⟨by rfl, by intro v kt hm; simp [mkKey] at hm, by rfl,
    resident_stable_without_CreateKey ⟨false, true⟩
      [Op.getOrCreateTypedKey (mkKey 3 7) (.int32 1) .SUM, Op.createLockedKey (mkKey 3 7) .SUM,
        Op.createKey (mkKey 3 8) .nil .WRITE, Op.get (mkKey 3 7)]
      sampleStore _ (mkKey 3 7) (some 0) (by rfl) (by intro v kt hm; simp [mkKey] at hm)
      (by rfl)⟩

/-- C8: a key once created is never removed: if `Get(k)` succeeds in a state,
it succeeds in every state reached from it by any sequence of store operations
(`CreateKey`, `getOrCreateTypedKey`, the three locked creations, `Get`, `Set`
and its typed variants, `IsDD`). -/
theorem keys_never_removed (fl : Flags) (os : List Op) (s s2 : Store) (k : Key)
    (hf : ∃ p, Get fl s k = .ok (p, none)) (h : run fl s os = .ok s2) :
    ∃ p2, Get fl s2 k = .ok (p2, none) :=
  run_found fl os s s2 k hf h

set_option maxRecDepth 100000 in
/-- C8 at a concrete input: a key created by `CreateKey` is still found after a
second `CreateKey` on it, a locked creation, a merge and a hot-key test. -/
theorem keys_never_removed_witness :
    (∃ p, Get ⟨false, true⟩ sampleStore (mkKey 3 7) = .ok (p, none)) ∧
    run ⟨false, true⟩ sampleStore
      [Op.createKey (mkKey 3 7) (.int32 1) .SUM, Op.createMuLockedKey (mkKey 3 7) .SUM,
        Op.set (some 1) (.int32 2) .SUM, Op.isDD (mkKey 3 7)]
      = .ok (runStore ⟨false, true⟩ sampleStore
        [Op.createKey (mkKey 3 7) (.int32 1) .SUM, Op.createMuLockedKey (mkKey 3 7) .SUM,
          Op.set (some 1) (.int32 2) .SUM, Op.isDD (mkKey 3 7)]) ∧
    (∃ p2, Get ⟨false, true⟩ (runStore ⟨false, true⟩ sampleStore
        [Op.createKey (mkKey 3 7) (.int32 1) .SUM, Op.createMuLockedKey (mkKey 3 7) .SUM,
          Op.set (some 1) (.int32 2) .SUM, Op.isDD (mkKey 3 7)]) (mkKey 3 7) = .ok (p2, none)) :=
  ⟨⟨some 0, by rfl⟩, by rfl,
    keys_never_removed ⟨false, true⟩
      [Op.createKey (mkKey 3 7) (.int32 1) .SUM, Op.createMuLockedKey (mkKey 3 7) .SUM,
        Op.set (some 1) (.int32 2) .SUM, Op.isDD (mkKey 3 7)]
      sampleStore _ (mkKey 3 7) ⟨some 0, by rfl⟩ (by rfl)⟩

/-! ## Shard routing and lookup (C9, C10) -/

/-- C9: in every state reached from `NewStore` by store operations, each entry
of chunk `i` has a key whose first byte is `i`, so a key has entries in at most
one chunk; an operation on key `k` leaves every chunk other than `k[0]` as it
was, and a lookup of `k` in the partitioned backend depends on chunk `k[0]`
only: keys with the same first byte use the same chunk, keys with different
first bytes different chunks. -/
theorem shard_routing (fl : Flags) (os : List Op) (s : Store)
    (h : run fl NewStore os = .ok s) :
    (∀ (i : Nat) (chunk : Chunk) (k : Key),
      s.store[i]? = some (some chunk) → chunk.rows k ≠ none → k.at0 = i) ∧
    (∀ (i j : Nat) (ci cj : Chunk) (k : Key),
      s.store[i]? = some (some ci) → s.store[j]? = some (some cj) →
      ci.rows k ≠ none → cj.rows k ≠ none → i = j) ∧
    (∀ (o : Op) (s2 : Store) (k : Key), o.key = some k → step fl s o = .ok s2 →
      ∀ i, i ≠ k.at0 → s2.store[i]? = s.store[i]?) ∧
    (∀ (k : Key) (t : Store), fl.GStore = false → t.store[k.at0]? = s.store[k.at0]? →
      Get fl t k = Get fl s k) := by
  have hr : Routed s := run_routed fl os NewStore s NewStore_routed h
  refine ⟨hr, ?_, ?_, ?_⟩
  · intro i j ci cj k hi hj hki hkj
    rw [← hr i ci k hi hki, ← hr j cj k hj hkj]
  · intro o s2 k ho hst i hi
    exact shape_frame fl s s2 o (step_shape fl s s2 o hst) k ho i hi
  · intro k t hG ht
    rw [Get, Get, getKey_part_gen fl hG, getKey_part_gen fl hG, ht]

set_option maxRecDepth 100000 in
/-- C9 at a concrete input: the state after three creations on keys of chunks
3, 3 and 200. -/
theorem shard_routing_witness :
    run ⟨false, true⟩ NewStore
      [Op.createKey (mkKey 3 7) .nil .WRITE, Op.createLockedKey (mkKey 3 8) .SUM,
        Op.getOrCreateTypedKey (mkKey 200 7) (.int32 1) .MAX]
      = .ok (runStore ⟨false, true⟩ NewStore
        [Op.createKey (mkKey 3 7) .nil .WRITE, Op.createLockedKey (mkKey 3 8) .SUM,
          Op.getOrCreateTypedKey (mkKey 200 7) (.int32 1) .MAX]) ∧
    (∀ (i : Nat) (chunk : Chunk) (k : Key),
      (runStore ⟨false, true⟩ NewStore
        [Op.createKey (mkKey 3 7) .nil .WRITE, Op.createLockedKey (mkKey 3 8) .SUM,
          Op.getOrCreateTypedKey (mkKey 200 7) (.int32 1) .MAX]).store[i]? = some (some chunk) →
      chunk.rows k ≠ none → k.at0 = i) :=
  ⟨by rfl,
    (shard_routing ⟨false, true⟩
      [Op.createKey (mkKey 3 7) .nil .WRITE, Op.createLockedKey (mkKey 3 8) .SUM,
        Op.getOrCreateTypedKey (mkKey 200 7) (.int32 1) .MAX] _ (by rfl)).1⟩

/-- C10: in the partitioned backend, on a state whose chunk `k[0]` is
initialised, `Get(k)` returns the record and no error when the chunk maps `k`
to a non-nil record, and nil with ENOKEY otherwise; the locked path and
`getKeyStatic` give the same result, and the lookup leaves the store
unchanged. -/
theorem Get_partitioned (fl : Flags) (hG : fl.GStore = false) (s : Store) (k : Key)
    (hready : chunkReady s k) :
    (∀ a, resident fl s k = some (some a) → Get fl s k = .ok (some a, none)) ∧
    ((∀ a, resident fl s k ≠ some (some a)) → Get fl s k = .ok (none, some .ENOKEY)) ∧
    Get ⟨false, true⟩ s k = getKeyStatic s k ∧
    Get ⟨false, false⟩ s k = getKeyStatic s k ∧
    step fl s (.get k) = .ok s := by
  obtain ⟨chunk, hc⟩ := hready
  have hres : resident fl s k = chunk.rows k := by simp [resident, hG, hc]
  have hget := getKey_part fl hG s k chunk hc
  have hst := getKeyStatic_ready s k chunk hc
  refine ⟨?_, ?_, ?_, ?_, ?_⟩
  · intro a ha
    rw [Get, hget, ← hres, ha]
  · intro hn
    rw [Get, hget, ← hres]
    rcases h2 : resident fl s k with _ | _ | a
    · rfl
    · rfl
    · exact absurd h2 (hn a)
  · rw [Get, getKey_part ⟨false, true⟩ rfl s k chunk hc, hst]
  · rw [Get, getKey_part ⟨false, false⟩ rfl s k chunk hc, hst]
  · simp only [step, Get, hget]
    rcases chunk.rows k with _ | _ | a <;> rfl

set_option maxRecDepth 100000 in
/-- C10 at a concrete input: a key of chunk 3 in the store built by `NewStore`. -/
theorem Get_partitioned_witness :
    (⟨false, true⟩ : Flags).GStore = false ∧ chunkReady NewStore (mkKey 3 7) ∧
    (∀ a, resident ⟨false, true⟩ NewStore (mkKey 3 7) = some (some a) →
      Get ⟨false, true⟩ NewStore (mkKey 3 7) = .ok (some a, none)) ∧
    ((∀ a, resident ⟨false, true⟩ NewStore (mkKey 3 7) ≠ some (some a)) →
      Get ⟨false, true⟩ NewStore (mkKey 3 7) = .ok (none, some .ENOKEY)) ∧
    Get ⟨false, true⟩ NewStore (mkKey 3 7) = getKeyStatic NewStore (mkKey 3 7) ∧
    Get ⟨false, false⟩ NewStore (mkKey 3 7) = getKeyStatic NewStore (mkKey 3 7) ∧
    step ⟨false, true⟩ NewStore (.get (mkKey 3 7)) = .ok NewStore :=
  ⟨rfl, ⟨{ rows := fun _ => none }, by rfl⟩,
    Get_partitioned ⟨false, true⟩ rfl NewStore (mkKey 3 7) ⟨{ rows := fun _ => none }, by rfl⟩⟩

/-! ## Merge operations (C11 to C14) -/

/-- C11: SUM merge is order-independent: on a record whose scalar is an int32,
the calls `Set(br, d, SUM)` for a list of deltas succeed and change only the
scalar, to the initial scalar plus the sum of the deltas reduced to 32-bit
two-complement (the exact sum when that is an int32); every permutation of the
list gives the same record; from scalar 0 the deltas 5 and -2 give 3 in either
order. -/
theorem SUM_order_independent (br : BRecord) (ds ds2 : List Int)
    (hbr : isInt32 br.int_value) (hp : ds.Perm ds2) :
    SetAll br .SUM (ds.map Value.int32)
      = .ok { br with int_value := wrap32 (br.int_value + ds.sum) } ∧
    SetAll br .SUM (ds2.map Value.int32) = SetAll br .SUM (ds.map Value.int32) ∧
    (isInt32 (br.int_value + ds.sum) → wrap32 (br.int_value + ds.sum) = br.int_value + ds.sum) ∧
    (br.int_value = 0 →
      SetAll br .SUM [.int32 5, .int32 (-2)] = .ok { br with int_value := 3 } ∧
      SetAll br .SUM [.int32 (-2), .int32 5] = .ok { br with int_value := 3 }) := by
  refine ⟨SetAll_SUM ds br hbr, ?_, wrap32_of_isInt32 _, ?_⟩
  · rw [SetAll_SUM ds br hbr, SetAll_SUM ds2 br hbr, hp.sum_eq]
  · intro h0
    have h1 := SetAll_SUM [5, -2] br hbr
    have h2 := SetAll_SUM [-2, 5] br hbr
    simp only [List.map_cons, List.map_nil] at h1 h2
    rw [h1, h2, h0]
    constructor <;> rfl

/-- C11 at a concrete input: from scalar 0 the deltas 5 and -2 give 3 in either
order. -/
theorem SUM_order_independent_witness :
    isInt32 (sampleRecord 0 .nil).int_value ∧ [(5 : Int), -2].Perm [-2, 5] ∧
    SetAll (sampleRecord 0 .nil) .SUM [.int32 5, .int32 (-2)] = .ok (sampleRecord 3 .nil) ∧
    SetAll (sampleRecord 0 .nil) .SUM [.int32 (-2), .int32 5] = .ok (sampleRecord 3 .nil) :=
  ⟨by decide, by decide,
    ((SUM_order_independent (sampleRecord 0 .nil) [5, -2] [-2, 5] (by decide)
      (by decide)).2.2.2 rfl).1,
    ((SUM_order_independent (sampleRecord 0 .nil) [5, -2] [-2, 5] (by decide)
      (by decide)).2.2.2 rfl).2⟩

/-- C12: MAX merge is monotonic: one update through `Set` or `SetInt32` never
decreases the scalar and changes nothing else, and after a sequence of updates
the scalar is the maximum of the initial scalar and the applied values: it
bounds all of them and is one of them. -/
theorem MAX_monotonic (br : BRecord) (xs : List Int) :
    (∀ (b : BRecord) (x : Int),
      Set b (.int32 x) .MAX = .ok { b with int_value := max b.int_value x } ∧
      SetInt32 b x .MAX = { b with int_value := max b.int_value x } ∧
      b.int_value ≤ max b.int_value x) ∧
    SetAll br .MAX (xs.map Value.int32)
      = .ok { br with int_value := xs.foldl max br.int_value } ∧
    SetInt32All br .MAX xs = { br with int_value := xs.foldl max br.int_value } ∧
    br.int_value ≤ xs.foldl max br.int_value ∧
    (∀ x ∈ xs, x ≤ xs.foldl max br.int_value) ∧
    (xs.foldl max br.int_value = br.int_value ∨ xs.foldl max br.int_value ∈ xs) :=
  ⟨fun b x => ⟨Set_MAX b x, SetInt32_MAX b x, le_max_left _ _⟩,
    SetAll_MAX xs br, SetInt32All_MAX xs br, (foldl_max_ge xs br.int_value).1,
    (foldl_max_ge xs br.int_value).2, foldl_max_mem xs br.int_value⟩

/-- C13, as stated, fails: on a record that already stores the pair (5, x) with
x non-null, `SetOO` with the incoming pair (5, x) leaves the record as it is, so
the stored pair equals the incoming pair although 5 > 5 is false and a value was
stored. -/
theorem SetOO_pair_equal_without_replacement :
    SetOO (sampleRecord 5 (.other 1)) 5 (.other 1) .OOWRITE = sampleRecord 5 (.other 1) ∧
    Set (sampleRecord 5 (.other 1)) (.overwrite 5 (.other 1)) .OOWRITE
      = .ok (sampleRecord 5 (.other 1)) ∧
    ¬ (((SetOO (sampleRecord 5 (.other 1)) 5 (.other 1) .OOWRITE).int_value = 5 ∧
        (SetOO (sampleRecord 5 (.other 1)) 5 (.other 1) .OOWRITE).value = .other 1) ↔
       (5 > (sampleRecord 5 (.other 1)).int_value ∨ (sampleRecord 5 (.other 1)).value = .nil)) :=
  ⟨by decide, by rfl, by decide⟩

/-- C13, amended: for a non-null incoming value, `SetOO(br, q, v)` stores the
pair (q, v) when q exceeds the stored priority or no value is stored, and
otherwise leaves the record unchanged; hence afterwards the stored pair equals
(q, v) exactly when q exceeds the stored priority, or no value was stored, or
the stored pair already was (q, v).  A null incoming value leaves the record
unchanged for every q, and `Set` with tag OOWRITE and `Overwrite{q, v}` does
what `SetOO(br, q, v)` does. -/
theorem SetOO_spec (br : BRecord) (q : Int) (v : Value) (op : KeyType) :
    SetOO br q .nil op = br ∧
    (v ≠ .nil → (q > br.int_value ∨ br.value = .nil) →
      SetOO br q v op = { br with int_value := q, value := v }) ∧
    (v ≠ .nil → ¬ (q > br.int_value ∨ br.value = .nil) → SetOO br q v op = br) ∧
    (v ≠ .nil →
      (((SetOO br q v op).int_value = q ∧ (SetOO br q v op).value = v) ↔
        (q > br.int_value ∨ br.value = .nil ∨ (br.int_value = q ∧ br.value = v)))) ∧
    Set br (.overwrite q v) .OOWRITE = .ok (SetOO br q v .OOWRITE) := by
  refine ⟨by simp [SetOO], ?_, ?_, ?_, by simp [Set]⟩
  · intro hv hc
    simp [SetOO, hv, hc]
  · intro hv hc
    simp [SetOO, hv, hc]
  · intro hv
    by_cases hc : q > br.int_value ∨ br.value = .nil
    · have : SetOO br q v op = { br with int_value := q, value := v } := by
        simp [SetOO, hv, hc]
      rw [this]
      constructor
      · intro _
        rcases hc with h | h
        · exact Or.inl h
        · exact Or.inr (Or.inl h)
      · intro _
        exact ⟨rfl, rfl⟩
    · have : SetOO br q v op = br := by simp [SetOO, hv, hc]
      rw [this]
      constructor
      · intro h
        exact Or.inr (Or.inr h)
      · rintro (h | h | h)
        · exact absurd (Or.inl h) hc
        · exact absurd (Or.inr h) hc
        · exact h

/-- C14, as stated, fails: on a record with nothing stored, the pairs (5, x) and
(5, y) with x and y distinct and non-null leave x stored when (5, x) is applied
first and y stored when (5, y) is applied first. -/
theorem SetOO_tie_keeps_first :
    (SetOO (SetOO (sampleRecord 0 .nil) 5 (.other 1) .OOWRITE) 5 (.other 2) .OOWRITE).value
      = .other 1 ∧
    (SetOO (SetOO (sampleRecord 0 .nil) 5 (.other 2) .OOWRITE) 5 (.other 1) .OOWRITE).value
      = .other 2 ∧
    (SetOO (SetOO (sampleRecord 0 .nil) 5 (.other 1) .OOWRITE) 5 (.other 2) .OOWRITE).value
      ≠ (SetOO (SetOO (sampleRecord 0 .nil) 5 (.other 2) .OOWRITE) 5 (.other 1) .OOWRITE).value := by
  decide

/-- C14, amended: for two incoming pairs with non-null values, both orders of
`SetOO` leave the same stored priority, and they leave the same record (stored
priority and value) whenever the two priorities differ or the two values are
equal; with equal priorities and different values the pair applied first can
stay. -/
theorem SetOO_commutes (br : BRecord) (q1 q2 : Int) (v1 v2 : Value) (op : KeyType)
    (h1 : v1 ≠ .nil) (h2 : v2 ≠ .nil) :
    (SetOO (SetOO br q1 v1 op) q2 v2 op).int_value
      = (SetOO (SetOO br q2 v2 op) q1 v1 op).int_value ∧
    ((q1 ≠ q2 ∨ v1 = v2) →
      SetOO (SetOO br q1 v1 op) q2 v2 op = SetOO (SetOO br q2 v2 op) q1 v1 op) := by
  by_cases hs : br.value = .nil
  · have e1 : SetOO br q1 v1 op = { br with int_value := q1, value := v1 } := by
      simp [SetOO, h1, hs]
    have e2 : SetOO br q2 v2 op = { br with int_value := q2, value := v2 } := by
      simp [SetOO, h2, hs]
    rw [e1, e2]
    rcases lt_trichotomy q1 q2 with h | h | h
    · have n : ¬ (q1 > q2) := by omega
      simp [SetOO, h1, h2, h, n]
    · subst h
      simp [SetOO, h1, h2]
    · have n : ¬ (q2 > q1) := by omega
      simp [SetOO, h1, h2, h, n]
  · by_cases c1 : q1 > br.int_value
    · have e1 : SetOO br q1 v1 op = { br with int_value := q1, value := v1 } := by
        simp [SetOO, h1, c1]
      by_cases c2 : q2 > br.int_value
      · have e2 : SetOO br q2 v2 op = { br with int_value := q2, value := v2 } := by
          simp [SetOO, h2, c2]
        rw [e1, e2]
        rcases lt_trichotomy q1 q2 with h | h | h
        · have n : ¬ (q1 > q2) := by omega
          simp [SetOO, h1, h2, h, n]
        · subst h
          simp [SetOO, h1, h2]
        · have n : ¬ (q2 > q1) := by omega
          simp [SetOO, h1, h2, h, n]
      · have e2 : SetOO br q2 v2 op = br := by simp [SetOO, h2, c2, hs]
        have n : ¬ (q2 > q1) := by omega
        rw [e1, e2, e1]
        simp [SetOO, h1, h2, n]
    · have e1 : SetOO br q1 v1 op = br := by simp [SetOO, h1, c1, hs]
      by_cases c2 : q2 > br.int_value
      · have e2 : SetOO br q2 v2 op = { br with int_value := q2, value := v2 } := by
          simp [SetOO, h2, c2]
        have n : ¬ (q1 > q2) := by omega
        rw [e1, e2]
        simp [SetOO, h1, h2, n]
      · have e2 : SetOO br q2 v2 op = br := by simp [SetOO, h2, c2, hs]
        rw [e1, e2, e1]
        simp

/-- C14 amended, at a concrete input: the pairs (5, x) and (7, y) on a record
with nothing stored. -/
theorem SetOO_commutes_witness :
    Value.other 1 ≠ .nil ∧ Value.other 2 ≠ .nil ∧ ((5 : Int) ≠ 7 ∨ Value.other 1 = .other 2) ∧
    SetOO (SetOO (sampleRecord 0 .nil) 5 (.other 1) .OOWRITE) 7 (.other 2) .OOWRITE
      = SetOO (SetOO (sampleRecord 0 .nil) 7 (.other 2) .OOWRITE) 5 (.other 1) .OOWRITE :=
  ⟨by decide, by decide, by decide,
    (SetOO_commutes (sampleRecord 0 .nil) 5 7 (.other 1) (.other 2) .OOWRITE (by decide)
      (by decide)).2 (by decide)⟩

/-! ## Hot-key test (C15) -/

/-- C15: `IsDD(k)` returns true exactly when `any_dd` is set and `dd` maps `k` to
true; with `any_dd` false it returns false for every key whatever `dd` holds;
and the call leaves the store as it was. -/
theorem IsDD_spec (fl : Flags) (s : Store) (k : Key) :
    (IsDD s k = true ↔ (s.any_dd = true ∧ s.dd k = some true)) ∧
    (∀ (dd2 : Key → Option Bool) (j : Key),
      IsDD { s with any_dd := false, dd := dd2 } j = false) ∧
    (s.any_dd = false → IsDD s k = false) ∧
    step fl s (.isDD k) = .ok s := by
  refine ⟨?_, ?_, ?_, rfl⟩
  · unfold IsDD
    cases ha : s.any_dd
    · simp
    · rcases hd : s.dd k with _ | b
      · simp
      · cases b <;> simp
  · intro dd2 j
    simp [IsDD]
  · intro ha
    simp [IsDD, ha]

/-! ## Typing and framing of the merges (C16, C17) -/

/-- C16: a type mismatch in `Set` fails loudly: `Set` panics on the type
assertion, before any field is written, exactly when the tag is SUM or MAX and
the value is not an int32 (null included), or the tag is LIST and the value is
non-null and not an Entry, or the tag is OOWRITE and the value is non-null and
not an Overwrite; it returns a record in every other case, and through a
pointer to a live record the failing call ends the run with no new state. -/
theorem Set_type_mismatch (br : BRecord) (v : Value) (op : KeyType) :
    (Set br v op = .error .panicTypeAssert ↔ typeMismatch v op) ∧
    ((∃ r, Set br v op = .ok r) ↔ ¬ typeMismatch v op) ∧
    Set br .nil .SUM = .error .panicTypeAssert ∧
    Set br .nil .MAX = .error .panicTypeAssert ∧
    (∀ x, (∃ r, Set br (.int32 x) .SUM = .ok r) ∧ (∃ r, Set br (.int32 x) .MAX = .ok r)) ∧
    (∃ r, Set br v .WRITE = .ok r) ∧
    (∀ e, (∃ r, Set br (.entry e) .LIST = .ok r) ∧ (∃ r, Set br .nil .LIST = .ok r)) ∧
    (∀ i x, (∃ r, Set br (.overwrite i x) .OOWRITE = .ok r) ∧
      (∃ r, Set br .nil .OOWRITE = .ok r)) ∧
    (∀ (fl : Flags) (s : Store) (a : Nat), s.heap[a]? = some br → typeMismatch v op →
      step fl s (.set (some a) v op) = .error .panicTypeAssert) := by
  refine ⟨Set_error_iff br v op, Set_ok_iff br v op, rfl, rfl, ?_, ?_, ?_, ?_, ?_⟩
  · intro x
    exact ⟨(Set_ok_iff br _ .SUM).mpr (by simp [typeMismatch]),
      (Set_ok_iff br _ .MAX).mpr (by simp [typeMismatch])⟩
  · exact (Set_ok_iff br v .WRITE).mpr (by simp [typeMismatch])
  · intro e
    exact ⟨(Set_ok_iff br _ .LIST).mpr (by simp [typeMismatch]),
      (Set_ok_iff br _ .LIST).mpr (by simp [typeMismatch])⟩
  · intro i x
    exact ⟨(Set_ok_iff br _ .OOWRITE).mpr (by simp [typeMismatch]),
      (Set_ok_iff br _ .OOWRITE).mpr (by simp [typeMismatch])⟩
  · intro fl s a ha hm
    simp [step, Store.modify, ha, (Set_error_iff br v op).mpr hm]

/-- C17: field framing of the merges: `Set` with tag WRITE stores the incoming
value, null included, and leaves every other field, the scalar among them, as
it was, so the last of several WRITEs wins; `Set` and `SetInt32` with tag SUM
or MAX change the scalar and no other field; `Set` with tag LIST or OOWRITE and
a null value returns the record unchanged. -/
theorem merge_field_framing (br : BRecord) (v : Value) (x : Int) :
    Set br v .WRITE = .ok { br with value := v } ∧
    Set br .nil .WRITE = .ok { br with value := .nil } ∧
    (∀ ws, SetAll br .WRITE (ws ++ [v]) = .ok { br with value := v }) ∧
    Set br (.int32 x) .SUM = .ok { br with int_value := wrap32 (br.int_value + x) } ∧
    SetInt32 br x .SUM = { br with int_value := wrap32 (br.int_value + x) } ∧
    Set br (.int32 x) .MAX = .ok { br with int_value := max br.int_value x } ∧
    SetInt32 br x .MAX = { br with int_value := max br.int_value x } ∧
    Set br .nil .LIST = .ok br ∧
    Set br .nil .OOWRITE = .ok br :=
  ⟨rfl, rfl, fun ws => SetAll_WRITE_last ws br v, rfl, rfl, Set_MAX br x, SetInt32_MAX br x,
    rfl, rfl⟩

/-! ## The chunk array (C18) -/

/-- C18: `NewStore` builds exactly 256 chunks, each non-nil with an empty row
map; every operation keeps the length of the chunk array and leaves no slot
nil; hence in every state reached from `NewStore` each key (of length 16, with
`k[0]` below 256) indexes an initialised chunk, and `getKey` and `getKeyStatic`
return a result instead of ending in a fatal branch. -/
theorem NewStore_chunks (fl : Flags) (os : List Op) (s : Store)
    (h : run fl NewStore os = .ok s) :
    NewStore.store = List.replicate 256 (some { rows := fun _ => none }) ∧
    s.store.length = 256 ∧
    s.store.map Option.isSome = NewStore.store.map Option.isSome ∧
    (∀ (o : Op) (s2 : Store), step fl s o = .ok s2 →
      s2.store.map Option.isSome = s.store.map Option.isSome) ∧
    (∀ k : Key, k.len = 16 ∧ k.at0 < 256 ∧ ∃ c, s.store[k.at0]? = some (some c)) ∧
    (∀ (fl2 : Flags) (k : Key),
      (∃ r, getKey fl2 s k = .ok r) ∧ (∃ r, getKeyStatic s k = .ok r) ∧
      getKey fl2 s k ≠ .error .fatalEmptyKey ∧ getKey fl2 s k ≠ .error .fatalNoChunk ∧
      getKeyStatic s k ≠ .error .fatalEmptyKey ∧ getKeyStatic s k ≠ .error .fatalNoChunk) := by
  obtain ⟨hr, hslots⟩ := run_chunksReady fl os NewStore s NewStore_chunksReady h
  have hkey : ∀ k : Key, ∃ c, s.store[k.at0]? = some (some c) := fun k => hr.2 k.at0 k.at0_lt
  refine ⟨NewStore_store, hr.1, hslots, ?_, ?_, ?_⟩
  · intro o s2 hst
    exact shape_slots fl s s2 o (step_shape fl s s2 o hst)
  · intro k
    exact ⟨k.len_eq, k.at0_lt, hkey k⟩
  · intro fl2 k
    obtain ⟨c, hc⟩ := hkey k
    have hst : ∃ r, getKeyStatic s k = .ok r := by
      rw [getKeyStatic_ready s k c hc]
      rcases c.rows k with _ | _ | a <;> exact ⟨_, rfl⟩
    have hget : ∃ r, getKey fl2 s k = .ok r := by
      cases hG : fl2.GStore
      · rw [getKey_part fl2 hG s k c hc]
        rcases c.rows k with _ | _ | a <;> exact ⟨_, rfl⟩
      · rw [getKey_flat fl2 hG]
        rcases s.gstore k with _ | p <;> exact ⟨_, rfl⟩
    obtain ⟨r1, h1⟩ := hget
    obtain ⟨r2, h2⟩ := hst
    refine ⟨⟨r1, h1⟩, ⟨r2, h2⟩, ?_, ?_, ?_, ?_⟩ <;> simp [h1, h2]

set_option maxRecDepth 100000 in
/-- C18 at a concrete input: the state after three creations; a key of chunk 200
is looked up on both paths. -/
theorem NewStore_chunks_witness :
    run ⟨false, true⟩ NewStore
      [Op.createKey (mkKey 3 7) .nil .WRITE, Op.createLockedKey (mkKey 3 8) .SUM,
        Op.getOrCreateTypedKey (mkKey 200 7) (.int32 1) .MAX]
      = .ok (runStore ⟨false, true⟩ NewStore
        [Op.createKey (mkKey 3 7) .nil .WRITE, Op.createLockedKey (mkKey 3 8) .SUM,
          Op.getOrCreateTypedKey (mkKey 200 7) (.int32 1) .MAX]) ∧
    (runStore ⟨false, true⟩ NewStore
        [Op.createKey (mkKey 3 7) .nil .WRITE, Op.createLockedKey (mkKey 3 8) .SUM,
          Op.getOrCreateTypedKey (mkKey 200 7) (.int32 1) .MAX]).store.length = 256 ∧
    (∃ r, getKeyStatic (runStore ⟨false, true⟩ NewStore
        [Op.createKey (mkKey 3 7) .nil .WRITE, Op.createLockedKey (mkKey 3 8) .SUM,
          Op.getOrCreateTypedKey (mkKey 200 7) (.int32 1) .MAX]) (mkKey 200 7) = .ok r) :=
  ⟨by rfl,
    (NewStore_chunks ⟨false, true⟩
      [Op.createKey (mkKey 3 7) .nil .WRITE, Op.createLockedKey (mkKey 3 8) .SUM,
        Op.getOrCreateTypedKey (mkKey 200 7) (.int32 1) .MAX] _ (by rfl)).2.1,
    ((NewStore_chunks ⟨false, true⟩
      [Op.createKey (mkKey 3 7) .nil .WRITE, Op.createLockedKey (mkKey 3 8) .SUM,
        Op.getOrCreateTypedKey (mkKey 200 7) (.int32 1) .MAX] _ (by rfl)).2.2.2.2.2
      ⟨false, false⟩ (mkKey 200 7)).2.1⟩

/-! ## The generic merge and the typed helpers (C19) -/

/-- C19: the generic `Set` agrees with the typed helpers: with an int32 and tag
SUM or MAX it yields the record `SetInt32` yields, with an Entry and tag LIST
the record `SetList` yields, and with `Overwrite{i, v}` and tag OOWRITE the
record `SetOO(br, i, v, OOWRITE)` yields. -/
theorem Set_agrees_with_typed (br : BRecord) (x i : Int) (e : Entry) (v : Value) :
    Set br (.int32 x) .SUM = .ok (SetInt32 br x .SUM) ∧
    Set br (.int32 x) .MAX = .ok (SetInt32 br x .MAX) ∧
    Set br (.entry e) .LIST = .ok (SetList br e .LIST) ∧
    Set br (.overwrite i v) .OOWRITE = .ok (SetOO br i v .OOWRITE) := by
  refine ⟨rfl, ?_, rfl, rfl⟩
  rw [Set_MAX, SetInt32_MAX]

/-! ## The unlocked fast path (C20) -/

/-- C20: in the partitioned backend with the unlocked fast path, on a state whose
chunk `k[0]` is initialised, `getOrCreateTypedKey` on a key that has a non-nil
record returns that record and the store unchanged, and on any other key ends
in the fatal branch "Should have preallocated keys" before any insertion; so
the call succeeds exactly when the lookup of the key succeeds. -/
theorem getOrCreateTypedKey_unlocked (fl : Flags) (hG : fl.GStore = false)
    (hU : fl.UseRLocks = false) (s : Store) (k : Key) (v : Value) (kt : KeyType)
    (hready : chunkReady s k) :
    (∀ a, resident fl s k = some (some a) →
      getOrCreateTypedKey fl s k v kt = .ok (some a, s)) ∧
    ((∀ a, resident fl s k ≠ some (some a)) →
      getOrCreateTypedKey fl s k v kt = .error .fatalNotPreallocated) ∧
    ((∃ r, getOrCreateTypedKey fl s k v kt = .ok r) ↔ ∃ a, resident fl s k = some (some a)) ∧
    ((∃ r, getOrCreateTypedKey fl s k v kt = .ok r) ↔ ∃ p, Get fl s k = .ok (p, none)) := by
  obtain ⟨chunk, hc⟩ := hready
  have hres : resident fl s k = chunk.rows k := by simp [resident, hG, hc]
  have hgo := getOrCreateTypedKey_static fl hG hU s k v kt
  rw [hc] at hgo
  dsimp only at hgo
  have hget := getKey_part fl hG s k chunk hc
  rw [hgo, hres, Get, hget]
  rcases chunk.rows k with _ | _ | a <;> simp

set_option maxRecDepth 100000 in
/-- C20 at concrete inputs: a key absent from the store built by `NewStore`, and
the key created in `sampleStore`. -/
theorem getOrCreateTypedKey_unlocked_witness :
    chunkReady NewStore (mkKey 3 7) ∧ chunkReady sampleStore (mkKey 3 7) ∧
    getOrCreateTypedKey ⟨false, false⟩ NewStore (mkKey 3 7) (.int32 1) .SUM
      = .error .fatalNotPreallocated ∧
    getOrCreateTypedKey ⟨false, false⟩ sampleStore (mkKey 3 7) (.int32 1) .SUM
      = .ok (some 0, sampleStore) :=
  ⟨⟨{ rows := fun _ => none }, by rfl⟩, ⟨_, by rfl⟩,
    (getOrCreateTypedKey_unlocked ⟨false, false⟩ rfl rfl NewStore (mkKey 3 7) (.int32 1) .SUM
      ⟨{ rows := fun _ => none }, by rfl⟩).2.1 (by
        intro a ha
        have h0 : resident ⟨false, false⟩ NewStore (mkKey 3 7) = none := by rfl
        rw [h0] at ha
        cases ha),
    (getOrCreateTypedKey_unlocked ⟨false, false⟩ rfl rfl sampleStore (mkKey 3 7) (.int32 1) .SUM
      ⟨_, by rfl⟩).1 0 (by rfl)⟩

end Doppel
